import Mathlib

/-!
Verification development for the candidate-job relevance scoring engine of
`backend/api/utils/semantic_matcher.py`.

Modelling conventions (shallow embedding):
* Python strings are modelled as `List Char` (`Str`), so that every string
  operation reduces in the kernel.  String literals enter through `.data`.
* Python floats are modelled as exact rationals `ℚ`; `round(x, 2)` is
  modelled by exact round-half-to-even (`pyRound2`).
* Python sets of strings are `Finset Str`; Python dicts used as result maps
  are association lists with Python's insert-or-overwrite semantics.
* The Django cache is explicit state (association lists keyed by the cache
  key).  It is split into the store of embedding vectors and the store of
  pairwise scores: the code prefixes keys with "embedding" resp.
  "similarity_v2", so the two families of keys never collide.
* External collaborators that are not part of the repository (the sentence
  transformer `model.encode`, sklearn's `cosine_similarity`, and
  `hashlib.sha256(...).hexdigest()[:16]`) are parameters of `MatcherEnv`;
  operations that can raise return `Except Unit _`.
* Python records (`candidate_data`, `job_data`) become structures; a skill
  entry is `Option Str`, where `none` stands for a non-string value in the
  skill list (the code's `isinstance(skill, str)` checks make the
  distinction observable).
-/

set_option allowUnsafeReducibility true in
attribute [semireducible] Rat.mul Rat.inv Rat.add Rat.sub Rat.ofScientific

/-- Python strings, modelled as lists of characters. -/
abbrev Str := List Char

/-- Python's `str.lower()`. -/
def pyLower (s : Str) : Str := s.map Char.toLower

/-- Python's `str.strip()` (drop surrounding whitespace). -/
def pyStrip (s : Str) : Str :=
  ((s.dropWhile Char.isWhitespace).reverse.dropWhile Char.isWhitespace).reverse

/-- Helper for `pyFind`: first index at which `needle` occurs in the
remaining haystack, counting from `i`. -/
def pyFindAux (needle : Str) : Str → Nat → Option Nat
  | [], i => if needle = [] then some i else none
  | c :: rest, i =>
    if needle.isPrefixOf (c :: rest) then some i else pyFindAux needle rest (i + 1)

/-- Python's `hay.find(needle)`, as `Option Nat` instead of `-1` for absence. -/
def pyFind (hay needle : Str) : Option Nat := pyFindAux needle hay 0

/-- Python's `needle in hay` substring test. -/
def pyIn (needle hay : Str) : Bool := (pyFind hay needle).isSome

/-- Python's `str.split()` with no argument: split on whitespace runs,
dropping empty pieces. -/
def pySplit (s : Str) : List Str :=
  (List.splitOnP Char.isWhitespace s).filter (fun t => t ≠ [])

/-- Finset of (modelled) strings built from string literals. -/
def strSet (l : List String) : Finset Str := (l.map String.data).toFinset

/-- Round half to even (Python's `round` on an exactly represented value). -/
def roundHalfEven (x : ℚ) : ℤ :=
  if x - (Rat.floor x : ℚ) < 1/2 then Rat.floor x
  else if 1/2 < x - (Rat.floor x : ℚ) then Rat.floor x + 1
  else if 2 ∣ Rat.floor x then Rat.floor x
  else Rat.floor x + 1

/-- Python's `round(x, 2)` on the exact-rational model of floats. -/
def pyRound2 (x : ℚ) : ℚ := (roundHalfEven (x * 100) : ℚ) / 100

/-- A skill entry of `candidate_data['skills']`: `some s` is the string `s`,
`none` is a non-string Python value (observable through `isinstance` checks
and through `.lower()` raising `AttributeError`). -/
abbrev PySkill := Option Str

instance {ε α : Type} [DecidableEq ε] [DecidableEq α] : DecidableEq (Except ε α) :=
  fun x y =>
    match x, y with
    | .ok a, .ok b =>
      if h : a = b then isTrue (by rw [h]) else isFalse (by simp [h])
    | .error a, .error b =>
      if h : a = b then isTrue (by rw [h]) else isFalse (by simp [h])
    | .ok _, .error _ => isFalse (by simp)
    | .error _, .ok _ => isFalse (by simp)

/-- The candidate attribute bag, restricted to the fields the scoring engine
reads.  A missing field is the code's `.get` default: `[]`, `''` or `0`; the
`id` field is `none` when absent. -/
structure Candidate where
  id : Option Int := none
  skills : List PySkill := []
  current_position : Str := []
  current_company : Str := []
  experience_years : Int := 0
  education : List Str := []
deriving Repr, DecidableEq

/-- The job attribute bag, restricted to the fields the scoring engine reads.
The `department` field of the code may be a dict with a `name` key or a
string; it is modelled by the name string. -/
structure Job where
  id : Option Int := none
  title : Str := []
  description : Str := []
  requirements : Str := []
  experience_level : Str := []
  department : Str := []
  job_type : Str := []
  work_type : Str := []
deriving Repr, DecidableEq

namespace SemanticMatcher

/-- Sum of pairwise products, modelling `np.dot` on equal-length vectors. -/
def dotL (a b : List ℚ) : ℚ := (List.zipWith (fun x y => x * y) a b).sum

/-- Squared Euclidean norm of a vector; `np.linalg.norm(a) ** 2`. -/
def normSq (a : List ℚ) : ℚ := dotL a a

/-- `SemanticMatcher.calculate_similarity` (semantic_matcher.py lines
108-124).  `numpy` computes the norms by a real square root, which has no
exact rational form, so the two norms are passed as arguments; the theorems
constrain them by `n1 * n1 = normSq a`, `0 ≤ n1` (and likewise `n2`), which
pins them to the exact values `np.linalg.norm` approximates. -/
def calculate_similarity (a b : List ℚ) (n1 n2 : ℚ) : ℚ :=
  if n1 = 0 ∨ n2 = 0 then 0
  else max 0 ((dotL a b / (n1 * n2) + 1) / 2)

end SemanticMatcher

namespace SemanticJobMatcher

/-- The model identifier baked into every cache key. -/
def model_name : Str := "all-MiniLM-L6-v2".data

/-- `SemanticJobMatcher._get_cache_key` (lines 380-386).  `sha16` models
`hashlib.sha256(normalized.encode()).hexdigest()[:16]`, a fixed
deterministic function supplied by the environment. -/
def get_cache_key (sha16 : Str → Str) (text : Str) (purpose : Str) : Str :=
  let normalized_text := pyLower (pyStrip text)
  let text_hash := sha16 normalized_text
  purpose ++ ['_'] ++ model_name ++ ['_'] ++ text_hash

/-- The ordered keyword → technology-stack table of
`_extract_core_technology` (lines 514-552).  Python dicts preserve
insertion order, so the list order is the iteration order. -/
def tech_mappings : List (Str × Str) :=
  [ (".net".data, "C# .NET Microsoft".data)
  , ("java".data, "Java Spring JVM".data)
  , ("python".data, "Python Django Flask".data)
  , ("javascript".data, "JavaScript Node.js".data)
  , ("node".data, "Node.js JavaScript".data)
  , ("react".data, "React JavaScript Frontend".data)
  , ("angular".data, "Angular TypeScript Frontend".data)
  , ("vue".data, "Vue.js JavaScript Frontend".data)
  , ("php".data, "PHP Laravel Symfony".data)
  , ("ruby".data, "Ruby Rails".data)
  , ("go".data, "Go Golang".data)
  , ("rust".data, "Rust Systems".data)
  , ("c++".data, "C++ Systems".data)
  , ("c#".data, "C# .NET Microsoft".data)
  , ("swift".data, "Swift iOS".data)
  , ("kotlin".data, "Kotlin Android".data)
  , ("devops".data, "Docker Kubernetes AWS Azure".data)
  , ("frontend".data, "HTML CSS JavaScript React".data)
  , ("backend".data, "API Database Server".data)
  , ("fullstack".data, "Frontend Backend Database".data)
  , ("data".data, "Python SQL Analytics ML".data)
  , ("mobile".data, "iOS Android React Native".data)
  , ("cloud".data, "AWS Azure GCP Docker".data) ]

/-- `_extract_core_technology` (lines 514-552): the stack phrase of the
first table keyword contained in the lowercased title, else empty. -/
def extract_core_technology (job_title : Str) : Str :=
  if job_title = [] then []
  else
    let title_lower := pyLower job_title
    match tech_mappings.find? (fun p => pyIn p.1 title_lower) with
    | some p => p.2
    | none => []

/-- The marker phrases of `_separate_requirements` (lines 562-565). -/
def preferred_keywords : List Str :=
  [ "preferred qualifications:".data
  , "nice to have:".data
  , "bonus:".data
  , "preferred:".data
  , "plus:".data
  , "additional:".data
  , "optional:".data ]

/-- `_separate_requirements` (lines 554-587): split the requirements text at
the first marker phrase into (required, preferred) and length-cap the
segments at 600 resp. 400 characters. -/
def separate_requirements (requirements_text : Str) : Str × Str :=
  if requirements_text = [] then ([], [])
  else
    let text_lower := pyLower requirements_text
    let split_pos := preferred_keywords.foldl
      (fun sp kw =>
        match pyFind text_lower kw with
        | some pos => if pos < sp then pos else sp
        | none => sp)
      requirements_text.length
    let required_section :=
      if split_pos < requirements_text.length then
        pyStrip (requirements_text.take split_pos)
      else requirements_text
    let preferred_section :=
      if split_pos < requirements_text.length then
        pyStrip (requirements_text.drop split_pos)
      else []
    let required_section :=
      if 600 < required_section.length then required_section.take 600 ++ "...".data
      else required_section
    let preferred_section :=
      if 400 < preferred_section.length then preferred_section.take 400 ++ "...".data
      else preferred_section
    (required_section, preferred_section)

/-- Join of skill entries by `', '.join(skills)`; raises `TypeError` when an
entry is not a string. -/
def joinSkills : List PySkill → Except Unit (List Str)
  | [] => .ok []
  | none :: _ => .error ()
  | some s :: rest => do
    let r ← joinSkills rest
    .ok (s :: r)

/-- `_prepare_candidate_text` (lines 415-456).  Fails (raises) exactly when
the skill list is non-empty and contains a non-string entry, since
`', '.join` is applied to it. -/
def prepare_candidate_text (c : Candidate) : Except Unit Str := do
  let parts₀ : List Str := []
  let parts₁ ←
    if c.skills ≠ [] then do
      let ss ← joinSkills c.skills
      pure (parts₀ ++ ["Technical skills: ".data ++ List.intercalate (", ".data) ss])
    else pure parts₀
  let parts₂ :=
    if c.current_position ≠ [] then
      parts₁ ++ ["Current role: ".data ++ c.current_position]
    else parts₁
  let parts₃ :=
    if c.experience_years ≠ 0 then
      let level : Str :=
        if 8 ≤ c.experience_years then "senior experienced".data
        else if 5 ≤ c.experience_years then "senior".data
        else if 2 ≤ c.experience_years then "mid-level".data
        else "junior".data
      parts₂ ++ ["Experience level: ".data ++ level ++ " with ".data ++
        (toString c.experience_years).data ++ " years".data]
    else parts₂
  let parts₄ :=
    if c.education ≠ [] then
      let edu_text := c.education.headD []
      if edu_text ≠ [] ∧ edu_text.length < 200 then
        parts₃ ++ ["Education: ".data ++ edu_text]
      else parts₃
    else parts₃
  let parts₅ :=
    if c.current_company ≠ [] then
      parts₄ ++ ["Working at: ".data ++ c.current_company]
    else parts₄
  pure (List.intercalate (" | ".data) parts₅)

/-- `_prepare_job_text` (lines 458-512). -/
def prepare_job_text (j : Job) : Str :=
  let parts₀ : List Str := []
  let parts₁ :=
    if j.title ≠ [] then
      parts₀ ++ ["Primary role: ".data ++ j.title ++ [' '] ++ j.title ++ [' '] ++ j.title]
    else parts₀
  let core_tech := extract_core_technology j.title
  let parts₂ :=
    if core_tech ≠ [] then
      parts₁ ++ ["Core technology stack: ".data ++ core_tech ++ [' '] ++ core_tech]
    else parts₁
  let parts₃ :=
    if j.description ≠ [] then
      let primary_desc :=
        if 500 < j.description.length then j.description.take 500 else j.description
      let withPrimary := parts₂ ++ ["Primary role focus: ".data ++ primary_desc]
      if 500 < j.description.length then
        withPrimary ++ ["Additional context: ".data ++ (j.description.drop 500).take 500]
      else withPrimary
    else parts₂
  let parts₄ :=
    if j.requirements ≠ [] then
      let pr := separate_requirements j.requirements
      let withReq :=
        if pr.1 ≠ [] then parts₃ ++ ["Required skills: ".data ++ pr.1] else parts₃
      if pr.2 ≠ [] then withReq ++ ["Nice to have: ".data ++ pr.2] else withReq
    else parts₃
  let parts₅ :=
    if j.experience_level ≠ [] then
      parts₄ ++ ["Experience level: ".data ++ j.experience_level]
    else parts₄
  let parts₆ :=
    if j.department ≠ [] then
      parts₅ ++ ["Department: ".data ++ j.department]
    else parts₅
  let job_type := if j.job_type ≠ [] then j.job_type else j.work_type
  let parts₇ :=
    if job_type ≠ [] then
      parts₆ ++ ["Job type: ".data ++ job_type]
    else parts₆
  List.intercalate (" | ".data) parts₇

/-- Lowercasing of the raw skill list, `set(skill.lower() for skill in
candidate_data.get('skills', []))` before `set` is taken; raises
`AttributeError` when an entry is not a string. -/
def lowerSkills : List PySkill → Except Unit (List Str)
  | [] => .ok []
  | none :: _ => .error ()
  | some s :: rest => do
    let r ← lowerSkills rest
    .ok (pyLower s :: r)

/-- The candidate skill set used in the business rules. -/
def lowerSkillsSet (skills : List PySkill) : Except Unit (Finset Str) := do
  let l ← lowerSkills skills
  pure l.toFinset

/-- The `stack_conflicts` table of `_calculate_technology_mismatch_penalty`
(lines 703-710); the conflict set of each keyword is conditional on the job
title, exactly as the dict comprehension builds it. -/
def stack_conflicts (job_title : Str) : List (Str × Finset Str) :=
  [ (".net".data,
      if pyIn ("backend".data) job_title ∨ pyIn ("api".data) job_title then
        strSet ["react", "vue", "angular"] else ∅)
  , ("java".data,
      if pyIn ("backend".data) job_title ∨ pyIn ("api".data) job_title then
        strSet ["react", "vue", "angular"] else ∅)
  , ("python".data,
      if pyIn ("backend".data) job_title ∨ pyIn ("django".data) job_title then
        strSet ["react", "vue", "angular"] else ∅)
  , ("devops".data,
      if pyIn ("devops".data) job_title then
        strSet ["react", "vue", "angular", "html", "css"] else ∅)
  , ("frontend".data,
      if pyIn ("frontend".data) job_title then
        strSet ["java", ".net", "c#", "spring"] else ∅)
  , ("backend".data,
      if pyIn ("backend".data) job_title then
        strSet ["html", "css", "bootstrap"] else ∅) ]

/-- One iteration of the penalty loop of
`_calculate_technology_mismatch_penalty` (lines 715-720). -/
def conflict_rule_penalty (job_title : Str) (skills : Finset Str)
    (rule : Str × Finset Str) : ℚ :=
  if pyIn rule.1 job_title then
    if 0 < (skills.filter (fun s => s ∈ rule.2)).card then
      min (((skills.filter (fun s => s ∈ rule.2)).card : ℚ) * 10) 25
    else 0
  else 0

/-- The table-driven part of the technology-mismatch penalty: the sum of the
per-rule penalties of the loop (lines 714-720). -/
def table_conflict_penalty (job_title : Str) (skills : Finset Str) : ℚ :=
  ((stack_conflicts job_title).map (conflict_rule_penalty job_title skills)).sum

/-- The fixed title/position penalties of
`_calculate_technology_mismatch_penalty` (lines 722-728). -/
def role_mismatch_penalty (job_title current_position : Str) : ℚ :=
  if pyIn (".net".data) job_title ∧ pyIn ("frontend".data) current_position then 15
  else if pyIn ("devops".data) job_title ∧ pyIn ("frontend".data) current_position then 20
  else if pyIn ("backend".data) job_title ∧ pyIn ("frontend".data) current_position then 10
  else 0

/-- `_calculate_technology_mismatch_penalty` (lines 696-730). -/
def calculate_technology_mismatch_penalty (c : Candidate) (j : Job) :
    Except Unit ℚ := do
  let job_title := pyLower j.title
  let candidate_skills ← lowerSkillsSet c.skills
  let current_position := pyLower c.current_position
  pure (table_conflict_penalty job_title candidate_skills +
    role_mismatch_penalty job_title current_position)

/-- `_calculate_primary_skills_match` (lines 732-743). -/
def calculate_primary_skills_match (c : Candidate) (j : Job) : Except Unit ℚ := do
  let candidate_skills ← lowerSkillsSet c.skills
  let primary_reqs := (separate_requirements j.requirements).1
  let primary_text := pyLower (j.title ++ [' '] ++ primary_reqs)
  let primary_matches := (candidate_skills.filter
    (fun s => pyIn s primary_text = true)).card
  pure (min ((primary_matches : ℚ) * 3) 15)

/-- `_calculate_secondary_skills_match` (lines 745-757). -/
def calculate_secondary_skills_match (c : Candidate) (j : Job) : Except Unit ℚ := do
  let candidate_skills ← lowerSkillsSet c.skills
  let secondary_reqs := (separate_requirements j.requirements).2
  if secondary_reqs ≠ [] then
    let secondary_matches := (candidate_skills.filter
      (fun s => pyIn s (pyLower secondary_reqs) = true)).card
    pure (min ((secondary_matches : ℚ) * 1) 5)
  else
    pure 0

/-- The ordered role-category table of `_calculate_role_alignment`
(lines 765-772). -/
def role_categories : List (Str × List Str) :=
  [ ("frontend".data,
      [("frontend".data), ("ui".data), ("ux".data), ("react".data),
       ("angular".data), ("vue".data)])
  , ("backend".data,
      [("backend".data), ("api".data), ("server".data), (".net".data),
       ("java".data), ("python".data)])
  , ("fullstack".data,
      [("fullstack".data), ("full-stack".data), ("full stack".data)])
  , ("devops".data,
      [("devops".data), ("sre".data), ("infrastructure".data), ("cloud".data)])
  , ("mobile".data,
      [("mobile".data), ("ios".data), ("android".data), ("react native".data)])
  , ("data".data,
      [("data".data), ("analyst".data), ("scientist".data), ("ml".data),
       ("ai".data)]) ]

/-- Classification of a position or title into the first matching role
category (the `for ... break` loops of lines 777-787). -/
def role_category_of (text : Str) : Option Str :=
  (role_categories.find? (fun p => p.2.any (fun kw => pyIn kw text))).map Prod.fst

/-- `_calculate_role_alignment` (lines 759-801). -/
def calculate_role_alignment (c : Candidate) (j : Job) : ℚ :=
  let current_position := pyLower c.current_position
  let job_title := pyLower j.title
  match role_category_of current_position, role_category_of job_title with
  | some cc, some jc =>
    if cc = jc then 8
    else if cc = "fullstack".data ∨ jc = "fullstack".data then 5
    else if (cc = "frontend".data ∧ jc = "backend".data) ∨
            (cc = "backend".data ∧ jc = "frontend".data) then -5
    else -2
  | _, _ => 0

/-- The seniority/role words weighted at 3 in `_calculate_position_relevance`
(line 821). -/
def important_words : Finset Str :=
  strSet ["senior", "lead", "principal", "developer", "engineer", "manager"]

/-- `_calculate_position_relevance` (lines 803-830). -/
def calculate_position_relevance (c : Candidate) (j : Job) : ℚ :=
  let current_position := pyLower c.current_position
  let job_title := pyLower j.title
  if current_position = [] ∨ job_title = [] then 0
  else if pyIn current_position job_title ∨ pyIn job_title current_position then 10
  else
    let position_words := (pySplit current_position).toFinset
    let title_words := (pySplit job_title).toFinset
    let common_words := position_words ∩ title_words
    let weighted_score : ℚ :=
      common_words.sum (fun w => if w ∈ important_words then 3 else 1)
    min weighted_score 8

/-- The experience-level band bonus of `_apply_business_rules`
(lines 662-678). -/
def experience_bonus (c : Candidate) (j : Job) : ℚ :=
  let y := c.experience_years
  let job_level := pyLower j.experience_level
  if job_level = "entry".data ∧ 0 ≤ y ∧ y ≤ 2 then 5
  else if job_level = "junior".data ∧ 1 ≤ y ∧ y ≤ 3 then 5
  else if job_level = "mid".data ∧ 2 ≤ y ∧ y ≤ 6 then 5
  else if job_level = "senior".data ∧ 5 ≤ y then 5
  else if job_level = "lead".data ∧ 7 ≤ y then 5
  else if job_level = "principal".data ∧ 10 ≤ y then 5
  else 0

/-- `_apply_business_rules` (lines 654-694).  Fails (raises) exactly when a
skill entry is not a string, through the `skill.lower()` comprehensions of
the sub-rules. -/
def apply_business_rules (c : Candidate) (j : Job) (base_score : ℚ) :
    Except Unit ℚ := do
  let tech_penalty ← calculate_technology_mismatch_penalty c j
  let adjusted_score := base_score - tech_penalty
  let expBonus := experience_bonus c j
  let primary_skills_bonus ← calculate_primary_skills_match c j
  let secondary_skills_bonus ← calculate_secondary_skills_match c j
  let role_alignment := calculate_role_alignment c j
  let position_bonus := calculate_position_relevance c j
  pure (adjusted_score + (expBonus + primary_skills_bonus + secondary_skills_bonus +
    role_alignment + position_bonus))

/-- The skill set of `_calculate_keyword_match_score` (lines 838-841):
non-string entries are skipped by the `isinstance(skill, str)` check, the
rest are lowercased and stripped. -/
def fallbackSkillSet (skills : List PySkill) : Finset Str :=
  ((skills.filterMap id).map (fun s => pyStrip (pyLower s))).toFinset

/-- The primary (title + required segment) text of the keyword fallback
(lines 847-848). -/
def fallback_primary_text (j : Job) : Str :=
  pyLower (pyLower j.title ++ [' '] ++ (separate_requirements j.requirements).1)

/-- The secondary (description + preferred segment) text of the keyword
fallback (line 849). -/
def fallback_secondary_text (j : Job) : Str :=
  pyLower (j.description ++ [' '] ++ (separate_requirements j.requirements).2)

/-- The number of fallback skills found verbatim in the primary text
(line 852). -/
def primary_matches (c : Candidate) (j : Job) : Nat :=
  ((fallbackSkillSet c.skills).filter
    (fun s => pyIn s (fallback_primary_text j) = true)).card

/-- The number of fallback skills found verbatim in the secondary text
(line 853). -/
def secondary_matches (c : Candidate) (j : Job) : Nat :=
  ((fallbackSkillSet c.skills).filter
    (fun s => pyIn s (fallback_secondary_text j) = true)).card

/-- The base score of `_calculate_keyword_match_score` before the business
rules are applied (lines 851-862). -/
def keyword_base_score (c : Candidate) (j : Job) : ℚ :=
  if fallbackSkillSet c.skills ≠ ∅ then
    (primary_matches c j : ℚ) / ((fallbackSkillSet c.skills).card : ℚ) * 50 +
      (secondary_matches c j : ℚ) / ((fallbackSkillSet c.skills).card : ℚ) * 20
  else 10

/-- The `try` block of `_calculate_keyword_match_score` (lines 836-872). -/
def keyword_match_body (c : Candidate) (j : Job) : Except Unit ℚ := do
  let base_score := keyword_base_score c j
  let adjusted_score ← apply_business_rules c j base_score
  pure (max 0 (min 100 (pyRound2 adjusted_score)))

/-- `_calculate_keyword_match_score` (lines 832-876): any exception inside
the body is caught and turned into the score `0.0`. -/
def calculate_keyword_match_score (c : Candidate) (j : Job) : ℚ :=
  match keyword_match_body c j with
  | .ok s => s
  | .error _ => 0

/-- Lookup in an association-list cache store (first hit wins; `cache.set`
prepends, so the newest entry is found). -/
def assocGet {α : Type} : List (Str × α) → Str → Option α
  | [], _ => none
  | (k, v) :: rest, key => if k = key then some v else assocGet rest key

/-- Cache operations over one store.  Each operation may raise (the backend
may be down); the standard operations below never do. -/
structure CacheOps (α : Type) where
  get : List (Str × α) → Str → Except Unit (Option α)
  set : List (Str × α) → Str → α → Except Unit (List (Str × α))

/-- The standard, never-failing cache backend. -/
def stdOps {α : Type} : CacheOps α where
  get st k := .ok (assocGet st k)
  set st k v := .ok ((k, v) :: st)

/-- The Django cache state: the "embedding_…" keyed store of vectors and the
"similarity_v2_…" keyed store of scores (the key prefixes never collide). -/
structure CacheSt where
  emb : List (Str × List ℚ)
  sim : List (Str × ℚ)
deriving Repr, DecidableEq

/-- The empty cache. -/
def emptyCache : CacheSt := ⟨[], []⟩

/-- The external collaborators of `SemanticJobMatcher`, as deterministic
functions: `encode` is `self.model.encode` (it may raise), `cosSim` is
sklearn's `cosine_similarity` on two 1×n matrices, `sha16` is the truncated
sha256 hex digest, and the cache operations may raise. -/
structure MatcherEnv where
  available : Bool
  encode : Str → Except Unit (List ℚ)
  cosSim : List ℚ → List ℚ → ℚ
  sha16 : Str → Str
  embOps : CacheOps (List ℚ)
  simOps : CacheOps ℚ

/-- An environment backed by the standard cache. -/
def stdEnv (available : Bool) (encode : Str → Except Unit (List ℚ))
    (cosSim : List ℚ → List ℚ → ℚ) (sha16 : Str → Str) : MatcherEnv :=
  ⟨available, encode, cosSim, sha16, stdOps, stdOps⟩

/-- `np.zeros(384)` as a rational vector. -/
def zeros384 : List ℚ := List.replicate 384 0

/-- `_get_embedding` (lines 388-413).  The `cache.get` call is outside the
`try` block, so its failure propagates; a failing `model.encode` or
`cache.set` is caught and degrades to the zero vector. -/
def get_embedding (env : MatcherEnv) (st : List (Str × List ℚ)) (text : Str) :
    Except Unit (Option (List ℚ) × List (Str × List ℚ)) :=
  if env.available = false then .ok (none, st)
  else if text = [] ∨ pyStrip text = [] then .ok (some zeros384, st)
  else
    let cache_key := get_cache_key env.sha16 text ("embedding".data)
    match env.embOps.get st cache_key with
    | .error e => .error e
    | .ok (some cached) => .ok (some cached, st)
    | .ok none =>
      match env.encode (pyStrip text) with
      | .error _ => .ok (some zeros384, st)
      | .ok embedding =>
        match env.embOps.set st cache_key embedding with
        | .error _ => .ok (some zeros384, st)
        | .ok st' => .ok (some embedding, st')

/-- Result of the `try` block of `calculate_job_match_score`: a returned
score, or an escaped exception, each with the cache state reached. -/
inductive CalcRes where
  | ok (score : ℚ) (st : CacheSt)
  | exc (st : CacheSt)
deriving Repr, DecidableEq

/-- The `try` block of `calculate_job_match_score` (lines 601-648). -/
def calc_body (env : MatcherEnv) (st : CacheSt) (c : Candidate) (j : Job) :
    CalcRes :=
  if env.available = false then .ok (calculate_keyword_match_score c j) st
  else
    match prepare_candidate_text c with
    | .error _ => .exc st
    | .ok candidate_text =>
      let job_text := prepare_job_text j
      if pyStrip candidate_text = [] ∨ pyStrip job_text = [] then .ok 0 st
      else
        let match_key := candidate_text ++ "||".data ++ job_text
        let cache_key := get_cache_key env.sha16 match_key ("similarity_v2".data)
        match env.simOps.get st.sim cache_key with
        | .error _ => .exc st
        | .ok (some cached_score) => .ok cached_score st
        | .ok none =>
          match get_embedding env st.emb candidate_text with
          | .error _ => .exc st
          | .ok (candidate_embedding, emb₁) =>
            match get_embedding env emb₁ job_text with
            | .error _ => .exc { st with emb := emb₁ }
            | .ok (job_embedding, emb₂) =>
              let st' : CacheSt := { st with emb := emb₂ }
              match candidate_embedding, job_embedding with
              | some ce, some je =>
                let similarity := env.cosSim ce je
                let score₀ := similarity * 100
                match apply_business_rules c j score₀ with
                | .error _ => .exc st'
                | .ok score₁ =>
                  let score₂ := max 0 (min 100 score₁)
                  match env.simOps.set st'.sim cache_key score₂ with
                  | .error _ => .exc st'
                  | .ok sim' => .ok (pyRound2 score₂) { st' with sim := sim' }
              | _, _ => .ok (calculate_keyword_match_score c j) st'

/-- `calculate_job_match_score` (lines 589-652): any exception from the body
is caught and the keyword fallback is returned instead. -/
def calculate_job_match_score (env : MatcherEnv) (st : CacheSt)
    (c : Candidate) (j : Job) : ℚ × CacheSt :=
  match calc_body env st c j with
  | .ok s st' => (s, st')
  | .exc st' => (calculate_keyword_match_score c j, st')

/-- Stable descending insertion by score: the new element goes after every
element with a greater-or-equal score. -/
def insertDesc {α : Type} (x : α × ℚ) : List (α × ℚ) → List (α × ℚ)
  | [] => [x]
  | y :: ys => if y.2 < x.2 then x :: y :: ys else y :: insertDesc x ys

/-- Python's stable `list.sort(key=score, reverse=True)`: a stable sort and
a stable insertion sort agree, so this models the library sort exactly. -/
def sortDesc {α : Type} (l : List (α × ℚ)) : List (α × ℚ) :=
  l.foldl (fun acc x => insertDesc x acc) []

/-- The scoring loop of `find_best_matching_jobs` (lines 890-898), threading
the cache state left to right, from an arbitrary accumulator. -/
def score_jobs_from (env : MatcherEnv) (c : Candidate)
    (acc : List (Job × ℚ) × CacheSt) (jobs : List Job) :
    List (Job × ℚ) × CacheSt :=
  jobs.foldl
    (fun acc j =>
      let r := calculate_job_match_score env acc.2 c j
      (acc.1 ++ [(j, r.1)], r.2))
    acc

/-- The scoring loop of `find_best_matching_jobs` (lines 890-898). -/
def score_jobs (env : MatcherEnv) (st : CacheSt) (c : Candidate)
    (jobs : List Job) : List (Job × ℚ) × CacheSt :=
  score_jobs_from env c ([], st) jobs

/-- `find_best_matching_jobs` (lines 878-902). -/
def find_best_matching_jobs (env : MatcherEnv) (st : CacheSt) (c : Candidate)
    (jobs : List Job) (top_k : Nat) : List (Job × ℚ) × CacheSt :=
  let p := score_jobs env st c jobs
  ((sortDesc p.1).take top_k, p.2)

/-- Python `dict` assignment `d[k] = v`: overwrite in place, else append. -/
def dictSet {α : Type} : List (Int × α) → Int → α → List (Int × α)
  | [], k, v => [(k, v)]
  | (k', v') :: rest, k, v =>
    if k' = k then (k, v) :: rest else (k', v') :: dictSet rest k v

/-- Python truthiness of an `id` field: `None` and `0` are falsy. -/
def truthyId : Option Int → Option Int
  | some n => if n = 0 then none else some n
  | none => none

/-- The inner loop of `batch_calculate_matches` (lines 948-959): score the
candidate against every job that has a truthy id. -/
def batch_inner (env : MatcherEnv) (c : Candidate) (jobs : List Job)
    (start : List (Int × ℚ) × CacheSt) : List (Int × ℚ) × CacheSt :=
  jobs.foldl
    (fun acc j =>
      match truthyId j.id with
      | none => acc
      | some job_id =>
        let r := calculate_job_match_score env acc.2 c j
        (acc.1 ++ [(job_id, r.1)], r.2))
    start

/-- The outer loop of `batch_calculate_matches` (lines 941-963), from an
arbitrary accumulated result dict. -/
def batch_fold (env : MatcherEnv) (jobs : List Job)
    (acc : List (Int × List (Int × ℚ)) × CacheSt) (candidates : List Candidate) :
    List (Int × List (Int × ℚ)) × CacheSt :=
  candidates.foldl
    (fun acc c =>
      match truthyId c.id with
      | none => acc
      | some candidate_id =>
        let inner := batch_inner env c jobs ([], acc.2)
        (dictSet acc.1 candidate_id (sortDesc inner.1), inner.2))
    acc

/-- `batch_calculate_matches` (lines 930-965). -/
def batch_calculate_matches (env : MatcherEnv) (st : CacheSt)
    (candidates : List Candidate) (jobs : List Job) :
    List (Int × List (Int × ℚ)) × CacheSt :=
  batch_fold env jobs ([], st) candidates

/-- Descending sortedness by score, the order produced by
`sort(key=..., reverse=True)`. -/
def SortedDesc {α : Type} (l : List (α × ℚ)) : Prop :=
  l.Pairwise (fun a b => b.2 ≤ a.2)

/-- Normalization as the specification words it for cache keys: trimmed,
lowercased, and with internal whitespace collapsed.  This is the
comparison definition for the refinement claim about `_get_cache_key`;
the code's own normalization is inside `get_cache_key`. -/
def spec_normalized_text (s : Str) : Str :=
  List.intercalate ([' ']) (pySplit (pyLower (pyStrip s)))

/-- The pair score the specification describes for the embedding path: the
cosine is first normalized to `[0,1]` by `(cosine + 1) / 2` before the
`× 100` scaling, the business rules and the final clamp-and-round.  This is
the comparison definition for the refinement claim about the similarity
normalization; the code's own path (`calc_body`) scales the raw cosine. -/
def spec_pair_score_from_cosine (cosine : ℚ) (c : Candidate) (j : Job) : ℚ :=
  match apply_business_rules c j ((cosine + 1) / 2 * 100) with
  | .ok s => pyRound2 (max 0 (min 100 s))
  | .error _ => calculate_keyword_match_score c j

/-- A candidate with a single skill `"a"` and no other attributes; its
composed text is `"Technical skills: a"`. -/
def cexCand : Candidate := { skills := [some ("a".data)] }

/-- A job titled `"x"` with no other attributes; its composed text is
`"Primary role: x x x"`. -/
def cexJob : Job := { title := "x".data }

/-- Environment for the determinism counterexample: the model is available,
`encode` returns a fixed vector, the sklearn cosine of any two vectors is
`0.12345`, and the digest is modelled by the identity (any fixed
collision-free digest gives the same run). -/
def envRound : MatcherEnv :=
  stdEnv true (fun _ => .ok [1]) (fun _ _ => 2469/20000) (fun s => s)

/-- A candidate whose one skill and position match `cexJob3` well, so that
the keyword fallback gives a visibly non-zero score. -/
def cexCand3 : Candidate :=
  { skills := [some ("python".data)], current_position := "python developer".data }

/-- A python-developer job matching `cexCand3`. -/
def cexJob3 : Job :=
  { title := "python developer".data, requirements := "python".data }

/-- Environment in which every `model.encode` call raises: `_get_embedding`
catches this and degrades to the zero vector, and sklearn's cosine of two
zero vectors is `0`. -/
def envEncodeFails : MatcherEnv :=
  stdEnv true (fun _ => .error ()) (fun _ _ => 0) (fun s => s)

/-- A candidate with one skill that matches nothing in `cexJob4`. -/
def cexCand4 : Candidate := { skills := [some ("cobol".data)] }

/-- A job whose texts contain no skill of `cexCand4`. -/
def cexJob4 : Job := { title := "jobx".data }

/-- A pure-frontend candidate for the technology-conflict counterexample. -/
def cexCand7 : Candidate :=
  { skills := [some ("React".data), some ("Vue".data), some ("Angular".data)] }

/-- A job whose title contains the `.net`, `java` and `backend` keywords, so
three conflict rules fire simultaneously. -/
def cexJob7 : Job := { title := ".NET Java Backend".data }

/-- Environment with the embedding provider unavailable (keyword fallback
path; the other components are never consulted). -/
def envFallback : MatcherEnv :=
  stdEnv false (fun _ => .error ()) (fun _ _ => 0) (fun s => s)

/-- First of two identically-scoring jobs, with the smaller id. -/
def cexJobA : Job := { id := some 1, title := "t".data }

/-- Second of two identically-scoring jobs, with the larger id. -/
def cexJobB : Job := { id := some 2, title := "t".data }

/-- Environment for the similarity-normalization counterexample: `encode`
maps the candidate text to `[1, 0]` and the job text to `[-3, 4]`, and
`cosSim` is the exact mathematical cosine of those vectors (their norms are
exactly `1` and `5`), which is what sklearn's `cosine_similarity`
approximates. -/
def envCosine : MatcherEnv :=
  stdEnv true
    (fun t => if t = pyStrip ("Technical skills: a".data) then .ok [1, 0] else .ok [-3, 4])
    (fun a b => SemanticMatcher.dotL a b / (1 * 5))
    (fun s => s)

/-- A candidate without a truthy id (Python treats `0` as falsy). -/
def cexCandZeroId : Candidate := { id := some 0, skills := [some ("a".data)] }

/-- A candidate with a truthy id. -/
def cexCandId5 : Candidate := { id := some 5, skills := [some ("a".data)] }

/-- A job without an id. -/
def cexJobNoId : Job := { title := "t".data }

/-- Environment whose similarity-cache reads always raise (cache backend
down at the `cache.get` of `calculate_job_match_score`). -/
def envSimGetFails : MatcherEnv where
  available := true
  encode _ := .ok [1]
  cosSim _ _ := 0
  sha16 s := s
  embOps := stdOps
  simOps := { get := fun _ _ => .error (), set := fun st k v => .ok ((k, v) :: st) }

end SemanticJobMatcher

theorem ratFloor_cast_le (x : ℚ) : (Rat.floor x : ℚ) ≤ x :=
  Rat.le_floor.mp le_rfl

theorem lt_ratFloor_add_one (x : ℚ) : x < (Rat.floor x : ℚ) + 1 := by
  by_contra h
  push_neg at h
  have h' : ((Rat.floor x + 1 : ℤ) : ℚ) ≤ x := by push_cast; linarith
  have := Rat.le_floor.mpr h'
  omega

theorem roundHalfEven_nonneg {x : ℚ} (hx : 0 ≤ x) : 0 ≤ roundHalfEven x := by
  have hfl : 0 ≤ Rat.floor x := Rat.le_floor.mpr (by exact_mod_cast hx)
  unfold roundHalfEven
  split_ifs <;> omega

theorem roundHalfEven_le {x : ℚ} {B : ℤ} (hx : x ≤ (B : ℚ)) :
    roundHalfEven x ≤ B := by
  have h1 : (Rat.floor x : ℚ) ≤ (B : ℚ) := le_trans (ratFloor_cast_le x) hx
  have hfl : Rat.floor x ≤ B := by exact_mod_cast h1
  have hsucc : ¬ x - (Rat.floor x : ℚ) < 1/2 → Rat.floor x + 1 ≤ B := by
    intro h
    push_neg at h
    by_contra hc
    push_neg at hc
    have hBlt : (B : ℚ) < (Rat.floor x : ℚ) + 1 := by exact_mod_cast hc
    have : (Rat.floor x : ℚ) + 1/2 ≤ x := by linarith
    have : (B : ℚ) + 1 ≤ (Rat.floor x : ℚ) + 1 := by
      have : B + 1 ≤ Rat.floor x + 1 := by omega
      exact_mod_cast this
    linarith
  unfold roundHalfEven
  split_ifs with h₁ h₂ h₃
  · exact hfl
  · exact hsucc h₁
  · exact hfl
  · exact hsucc h₁

theorem roundHalfEven_near (x : ℚ) :
    -(1/2) ≤ (roundHalfEven x : ℚ) - x ∧ (roundHalfEven x : ℚ) - x ≤ 1/2 := by
  have h1 : (Rat.floor x : ℚ) ≤ x := ratFloor_cast_le x
  have h2 : x < (Rat.floor x : ℚ) + 1 := lt_ratFloor_add_one x
  unfold roundHalfEven
  split_ifs with h₁ h₂ h₃ <;> constructor <;> push_cast <;> linarith

theorem pyRound2_nonneg {x : ℚ} (hx : 0 ≤ x) : 0 ≤ pyRound2 x := by
  unfold pyRound2
  have : (0 : ℤ) ≤ roundHalfEven (x * 100) := roundHalfEven_nonneg (by linarith)
  have : (0 : ℚ) ≤ (roundHalfEven (x * 100) : ℚ) := by exact_mod_cast this
  linarith

theorem pyRound2_le_100 {x : ℚ} (hx : x ≤ 100) : pyRound2 x ≤ 100 := by
  unfold pyRound2
  have h : roundHalfEven (x * 100) ≤ (10000 : ℤ) := by
    apply roundHalfEven_le
    push_cast
    linarith
  have h' : (roundHalfEven (x * 100) : ℚ) ≤ 10000 := by exact_mod_cast h
  linarith

theorem pyRound2_near (x : ℚ) :
    -(1/200) ≤ pyRound2 x - x ∧ pyRound2 x - x ≤ 1/200 := by
  obtain ⟨h1, h2⟩ := roundHalfEven_near (x * 100)
  unfold pyRound2
  constructor <;> linarith

namespace SemanticJobMatcher

theorem clamp_nonneg (x : ℚ) : 0 ≤ max 0 (min 100 x) := le_max_left 0 _

theorem clamp_le_100 (x : ℚ) : max 0 (min 100 x) ≤ 100 :=
  max_le (by norm_num) (min_le_left 100 x)

/-- The keyword fallback always lands in `[0, 100]`: the successful branch
is explicitly clamped and the exception branch returns `0`. -/
theorem calculate_keyword_match_score_bounds (c : Candidate) (j : Job) :
    0 ≤ calculate_keyword_match_score c j ∧
      calculate_keyword_match_score c j ≤ 100 := by
  unfold calculate_keyword_match_score keyword_match_body
  cases happ : apply_business_rules c j (keyword_base_score c j) with
  | ok s =>
    simp only [happ, bind, Except.bind]
    exact ⟨clamp_nonneg _, clamp_le_100 _⟩
  | error e =>
    simp only [happ, bind, Except.bind]
    norm_num

theorem insertDesc_perm {α : Type} (x : α × ℚ) (l : List (α × ℚ)) :
    (insertDesc x l).Perm (x :: l) := by
  induction l with
  | nil => simp [insertDesc]
  | cons y ys ih =>
    unfold insertDesc
    split_ifs with h
    · exact List.Perm.refl _
    · exact (ih.cons y).trans (List.Perm.swap x y ys)

theorem sortDesc_from_perm {α : Type} (l : List (α × ℚ)) :
    ∀ acc : List (α × ℚ),
      (l.foldl (fun acc x => insertDesc x acc) acc).Perm (acc ++ l) := by
  induction l with
  | nil => intro acc; simp
  | cons x xs ih =>
    intro acc
    have h1 := ih (insertDesc x acc)
    have h2 : (insertDesc x acc ++ xs).Perm ((x :: acc) ++ xs) :=
      (insertDesc_perm x acc).append_right xs
    have h3 : (x :: (acc ++ xs)).Perm (acc ++ x :: xs) := List.perm_middle.symm
    exact (h1.trans h2).trans h3

theorem sortDesc_perm {α : Type} (l : List (α × ℚ)) : (sortDesc l).Perm l := by
  simpa using sortDesc_from_perm l []

theorem insertDesc_nil {α : Type} (x : α × ℚ) : insertDesc x [] = [x] := rfl

theorem insertDesc_cons {α : Type} (x y : α × ℚ) (ys : List (α × ℚ)) :
    insertDesc x (y :: ys) =
      if y.2 < x.2 then x :: y :: ys else y :: insertDesc x ys := rfl

theorem sortedDesc_insertDesc {α : Type} {l : List (α × ℚ)} (x : α × ℚ)
    (h : SortedDesc l) : SortedDesc (insertDesc x l) := by
  induction l with
  | nil => simp [insertDesc, SortedDesc]
  | cons y ys ih =>
    unfold SortedDesc at h ⊢
    rw [List.pairwise_cons] at h
    obtain ⟨hy, hys⟩ := h
    rw [insertDesc_cons]
    by_cases hlt : y.2 < x.2
    · rw [if_pos hlt, List.pairwise_cons]
      refine ⟨?_, ?_⟩
      · intro z hz
        rcases List.mem_cons.mp hz with rfl | hz'
        · exact le_of_lt hlt
        · exact le_trans (hy z hz') (le_of_lt hlt)
      · rw [List.pairwise_cons]
        exact ⟨hy, hys⟩
    · rw [if_neg hlt, List.pairwise_cons]
      refine ⟨?_, ih hys⟩
      intro z hz
      have hz' := (insertDesc_perm x ys).mem_iff.mp hz
      rcases List.mem_cons.mp hz' with rfl | hz''
      · exact not_lt.mp hlt
      · exact hy z hz''

theorem sortDesc_from_sorted {α : Type} (l : List (α × ℚ)) :
    ∀ acc : List (α × ℚ), SortedDesc acc →
      SortedDesc (l.foldl (fun acc x => insertDesc x acc) acc) := by
  induction l with
  | nil => intro acc h; simpa using h
  | cons x xs ih =>
    intro acc h
    exact ih (insertDesc x acc) (sortedDesc_insertDesc x h)

theorem sortDesc_sorted {α : Type} (l : List (α × ℚ)) : SortedDesc (sortDesc l) :=
  sortDesc_from_sorted l [] (by simp [SortedDesc])

theorem filter_insertDesc {α : Type} (q : ℚ) {l : List (α × ℚ)} (x : α × ℚ)
    (h : SortedDesc l) :
    (insertDesc x l).filter (fun y => decide (y.2 = q)) =
      l.filter (fun y => decide (y.2 = q)) ++ if x.2 = q then [x] else [] := by
  induction l with
  | nil =>
    rw [insertDesc_nil]
    by_cases hx : x.2 = q
    · rw [if_pos hx]
      simp [List.filter, hx]
    · rw [if_neg hx]
      simp [List.filter, hx]
  | cons y ys ih =>
    unfold SortedDesc at h
    rw [List.pairwise_cons] at h
    obtain ⟨hy, hys⟩ := h
    rw [insertDesc_cons]
    by_cases hlt : y.2 < x.2
    · rw [if_pos hlt]
      by_cases hx : x.2 = q
      · have hnil : (y :: ys).filter (fun z => decide (z.2 = q)) = [] := by
          rw [List.filter_eq_nil_iff]
          intro z hz
          simp only [decide_eq_true_eq]
          intro hq
          rcases List.mem_cons.mp hz with rfl | hz'
          · rw [hq, ← hx] at hlt
            exact lt_irrefl _ hlt
          · have hle : z.2 ≤ y.2 := hy z hz'
            rw [hq, ← hx] at hle
            exact absurd (lt_of_le_of_lt hle hlt) (lt_irrefl _)
        rw [List.filter_cons, if_pos (by simp [hx]), hnil, if_pos hx]
        rfl
      · rw [List.filter_cons, if_neg (by simp [hx]), if_neg hx, List.append_nil]
    · rw [if_neg hlt, List.filter_cons, List.filter_cons]
      by_cases hyq : y.2 = q
      · rw [if_pos (by simp [hyq]), if_pos (by simp [hyq]), ih hys, List.cons_append]
      · rw [if_neg (by simp [hyq]), if_neg (by simp [hyq]), ih hys]

theorem filter_sortDesc_from {α : Type} (q : ℚ) (l : List (α × ℚ)) :
    ∀ acc : List (α × ℚ), SortedDesc acc →
      (l.foldl (fun acc x => insertDesc x acc) acc).filter
          (fun y => decide (y.2 = q)) =
        acc.filter (fun y => decide (y.2 = q)) ++
          l.filter (fun y => decide (y.2 = q)) := by
  induction l with
  | nil => intro acc h; simp
  | cons x xs ih =>
    intro acc h
    rw [List.foldl_cons, ih (insertDesc x acc) (sortedDesc_insertDesc x h),
      filter_insertDesc q x h, List.filter_cons]
    by_cases hx : x.2 = q <;> simp [hx]

/-- Stability of the modelled sort: for every score, the elements carrying
that score appear in the output in their input order. -/
theorem filter_sortDesc {α : Type} (q : ℚ) (l : List (α × ℚ)) :
    (sortDesc l).filter (fun y => decide (y.2 = q)) =
      l.filter (fun y => decide (y.2 = q)) := by
  simpa using filter_sortDesc_from q l [] (by simp [SortedDesc])

theorem assocGet_mem {α : Type} {l : List (Str × α)} {k : Str} {v : α}
    (h : assocGet l k = some v) : (k, v) ∈ l := by
  induction l with
  | nil => simp [assocGet] at h
  | cons p rest ih =>
    obtain ⟨k', v'⟩ := p
    rw [assocGet] at h
    by_cases hk : k' = k
    · rw [if_pos hk] at h
      cases h
      subst hk
      exact List.mem_cons_self _ _
    · rw [if_neg hk] at h
      exact List.mem_cons_of_mem _ (ih h)

theorem mem_dictSet_elim {α : Type} {d : List (Int × α)} {k : Int} {v : α}
    {x : Int} {w : α} (h : (x, w) ∈ dictSet d k v) :
    (x = k ∧ w = v) ∨ (x, w) ∈ d := by
  induction d with
  | nil =>
    rw [dictSet] at h
    have h' := List.mem_singleton.mp h
    cases h'
    exact Or.inl ⟨rfl, rfl⟩
  | cons p rest ih =>
    obtain ⟨k', v'⟩ := p
    rw [dictSet] at h
    by_cases hk : k' = k
    · rw [if_pos hk] at h
      rcases List.mem_cons.mp h with h' | h'
      · cases h'
        exact Or.inl ⟨rfl, rfl⟩
      · exact Or.inr (List.mem_cons_of_mem _ h')
    · rw [if_neg hk] at h
      rcases List.mem_cons.mp h with h' | h'
      · exact Or.inr (h' ▸ List.mem_cons_self _ _)
      · rcases ih h' with h'' | h''
        · exact Or.inl h''
        · exact Or.inr (List.mem_cons_of_mem _ h'')

theorem exists_mem_dictSet_iff {α : Type} (d : List (Int × α)) (k : Int) (v : α)
    (x : Int) :
    (∃ w, (x, w) ∈ dictSet d k v) ↔ x = k ∨ ∃ w, (x, w) ∈ d := by
  induction d with
  | nil => simp [dictSet]
  | cons p rest ih =>
    obtain ⟨k', v'⟩ := p
    rw [dictSet]
    by_cases hk : k' = k
    · rw [if_pos hk]
      subst hk
      constructor
      · rintro ⟨w, hw⟩
        rcases List.mem_cons.mp hw with h' | h'
        · cases h'
          exact Or.inl rfl
        · exact Or.inr ⟨w, List.mem_cons_of_mem _ h'⟩
      · rintro (rfl | ⟨w, hw⟩)
        · exact ⟨v, List.mem_cons_self _ _⟩
        · rcases List.mem_cons.mp hw with h' | h'
          · cases h'
            exact ⟨v, List.mem_cons_self _ _⟩
          · exact ⟨w, List.mem_cons_of_mem _ h'⟩
    · rw [if_neg hk]
      constructor
      · rintro ⟨w, hw⟩
        rcases List.mem_cons.mp hw with h' | h'
        · cases h'
          exact Or.inr ⟨v', List.mem_cons_self _ _⟩
        · rcases (ih).mp ⟨w, h'⟩ with h'' | ⟨w', hw'⟩
          · exact Or.inl h''
          · exact Or.inr ⟨w', List.mem_cons_of_mem _ hw'⟩
      · rintro (rfl | ⟨w, hw⟩)
        · obtain ⟨w', hw'⟩ := (ih).mpr (Or.inl rfl)
          exact ⟨w', List.mem_cons_of_mem _ hw'⟩
        · rcases List.mem_cons.mp hw with h' | h'
          · cases h'
            exact ⟨v', List.mem_cons_self _ _⟩
          · obtain ⟨w', hw'⟩ := (ih).mpr (Or.inr ⟨w, h'⟩)
            exact ⟨w', List.mem_cons_of_mem _ hw'⟩

theorem lowerSkills_error_of_none {skills : List PySkill} (h : none ∈ skills) :
    lowerSkills skills = .error () := by
  induction skills with
  | nil => simp at h
  | cons s rest ih =>
    cases s with
    | none => rfl
    | some t =>
      rcases List.mem_cons.mp h with h' | h'
      · exact absurd h' (by simp)
      · rw [lowerSkills]
        rw [ih h']
        rfl

theorem joinSkills_error_of_none {skills : List PySkill} (h : none ∈ skills) :
    joinSkills skills = .error () := by
  induction skills with
  | nil => simp at h
  | cons s rest ih =>
    cases s with
    | none => rfl
    | some t =>
      rcases List.mem_cons.mp h with h' | h'
      · exact absurd h' (by simp)
      · rw [joinSkills]
        rw [ih h']
        rfl

theorem lowerSkills_append_some {skills : List PySkill} {l : List Str}
    (h : lowerSkills skills = .ok l) (s : Str) :
    lowerSkills (skills ++ [some s]) = .ok (l ++ [pyLower s]) := by
  induction skills generalizing l with
  | nil =>
    cases h
    rfl
  | cons x rest ih =>
    cases x with
    | none => simp [lowerSkills] at h
    | some t =>
      rw [lowerSkills] at h
      cases hrest : lowerSkills rest with
      | ok r =>
        rw [hrest] at h
        simp only [bind, Except.bind] at h
        cases h
        rw [List.cons_append, lowerSkills, ih hrest]
        rfl
      | error e =>
        rw [hrest] at h
        simp [bind, Except.bind] at h

theorem list_map_sum_le {α : Type} (l : List α) (f : α → ℚ) (B : ℚ)
    (h : ∀ x ∈ l, f x ≤ B) : (l.map f).sum ≤ (l.length : ℚ) * B := by
  induction l with
  | nil => simp
  | cons x rest ih =>
    have hx := h x (List.mem_cons_self _ _)
    have hrest := ih (fun y hy => h y (List.mem_cons_of_mem _ hy))
    simp only [List.map_cons, List.sum_cons, List.length_cons]
    push_cast
    linarith

end SemanticJobMatcher

namespace SemanticMatcher

theorem dotL_nil_left (b : List ℚ) : dotL [] b = 0 := by
  cases b <;> rfl

theorem dotL_nil_right (a : List ℚ) : dotL a [] = 0 := by
  cases a <;> rfl

theorem dotL_cons (x y : ℚ) (a b : List ℚ) :
    dotL (x :: a) (y :: b) = x * y + dotL a b := by
  simp [dotL]

theorem normSq_nonneg (a : List ℚ) : 0 ≤ normSq a := by
  induction a with
  | nil => simp [normSq, dotL]
  | cons x rest ih =>
    rw [normSq, dotL_cons]
    have : 0 ≤ x * x := mul_self_nonneg x
    rw [normSq] at ih
    linarith

/-- Cauchy-Schwarz for the modelled dot product. -/
theorem dotL_sq_le (a : List ℚ) : ∀ b : List ℚ,
    dotL a b ^ 2 ≤ normSq a * normSq b := by
  induction a with
  | nil =>
    intro b
    simp [dotL_nil_left, normSq]
  | cons x rest ih =>
    intro b
    cases b with
    | nil =>
      simp [dotL_nil_right, normSq, dotL_cons]
    | cons y brest =>
      have hA := normSq_nonneg rest
      have hB := normSq_nonneg brest
      have hd := ih brest
      simp only [normSq] at hA hB hd ⊢
      rw [dotL_cons, dotL_cons, dotL_cons]
      rcases eq_or_lt_of_le hB with hB0 | hBpos
      · have hd0 : dotL rest brest = 0 := by
          have h' := hd
          rw [← hB0, mul_zero] at h'
          have h2 := sq_nonneg (dotL rest brest)
          have h3 : dotL rest brest ^ 2 = 0 := le_antisymm h' h2
          exact pow_eq_zero_iff (n := 2) (by norm_num) |>.mp h3
        rw [hd0, ← hB0]
        nlinarith [mul_nonneg hA (mul_self_nonneg y)]
      · have expand : dotL brest brest *
            ((x * x + dotL rest rest) * (y * y + dotL brest brest) -
              (x * y + dotL rest brest) ^ 2) =
            (x * dotL brest brest - y * dotL rest brest) ^ 2 +
              (dotL rest rest * dotL brest brest - dotL rest brest ^ 2) *
                (y * y + dotL brest brest) := by ring
        have h₁ := sq_nonneg (x * dotL brest brest - y * dotL rest brest)
        have h₂ : 0 ≤ (dotL rest rest * dotL brest brest - dotL rest brest ^ 2) *
            (y * y + dotL brest brest) :=
          mul_nonneg (by linarith) (by nlinarith [mul_self_nonneg y])
        have h0 : dotL brest brest * 0 ≤ dotL brest brest *
            ((x * x + dotL rest rest) * (y * y + dotL brest brest) -
              (x * y + dotL rest brest) ^ 2) := by
          rw [mul_zero, expand]
          linarith
        have := le_of_mul_le_mul_left h0 hBpos
        linarith

theorem abs_dotL_le {a b : List ℚ} {n1 n2 : ℚ}
    (h1 : n1 * n1 = normSq a) (h2 : n2 * n2 = normSq b)
    (hn1 : 0 ≤ n1) (hn2 : 0 ≤ n2) :
    -(n1 * n2) ≤ dotL a b ∧ dotL a b ≤ n1 * n2 := by
  have hcs := dotL_sq_le a b
  have hsq : dotL a b ^ 2 ≤ (n1 * n2) ^ 2 := by
    calc dotL a b ^ 2 ≤ normSq a * normSq b := hcs
      _ = n1 * n1 * (n2 * n2) := by rw [h1, h2]
      _ = (n1 * n2) ^ 2 := by ring
  have hnn : 0 ≤ n1 * n2 := mul_nonneg hn1 hn2
  constructor
  · nlinarith [sq_nonneg (dotL a b + n1 * n2)]
  · nlinarith [sq_nonneg (dotL a b - n1 * n2)]

end SemanticMatcher

namespace SemanticJobMatcher

/-- C4: the claim asserts that a candidate with a NON-EMPTY skill list and no
skill occurring in either job text gets base score 10; the code gives such a
candidate base score 0 and reserves the 10-point baseline for an EMPTY skill
set.  Concrete refutation: one skill "cobol", job texts without it. -/
theorem claim_C4_counterexample :
    cexCand4.skills ≠ [] ∧
    fallbackSkillSet cexCand4.skills ≠ ∅ ∧
    primary_matches cexCand4 cexJob4 = 0 ∧
    secondary_matches cexCand4 cexJob4 = 0 ∧
    keyword_base_score cexCand4 cexJob4 = 0 ∧
    keyword_base_score cexCand4 cexJob4 ≠ 10 := by
  refine ⟨by decide, by decide, by decide, by decide, by decide, by decide⟩

/-- C4 (amended): the 10-point baseline of the keyword fallback applies to a
candidate whose (string-typed) skill set is empty; a candidate with a
non-empty skill set and no match in either job text gets base score 0. -/
theorem claim_C4_amended (c : Candidate) (j : Job) :
    (fallbackSkillSet c.skills = ∅ → keyword_base_score c j = 10) ∧
    (fallbackSkillSet c.skills ≠ ∅ → primary_matches c j = 0 →
      secondary_matches c j = 0 → keyword_base_score c j = 0) := by
  constructor
  · intro h
    unfold keyword_base_score
    rw [if_neg (by simp [h])]
  · intro hne hp hs
    unfold keyword_base_score
    rw [if_pos hne, hp, hs]
    norm_num

/-- Witness for the amended C4 at concrete inputs. -/
theorem claim_C4_witness :
    keyword_base_score { skills := [] } cexJob4 = 10 ∧
    keyword_base_score cexCand4 cexJob4 = 0 :=
  ⟨(claim_C4_amended { skills := [] } cexJob4).1 (by decide),
   (claim_C4_amended cexCand4 cexJob4).2 (by decide) (by decide) (by decide)⟩

/-- C7: the claim asserts the table-driven conflict penalty never exceeds 25
in total; the code caps each rule at 25 but sums the capped rules, so a
title triggering the ".net", "java" and "backend" rules against a pure
frontend skill set yields a table penalty of 50 (the fixed title/position
penalties contribute 0 here). -/
theorem claim_C7_counterexample :
    calculate_technology_mismatch_penalty cexCand7 cexJob7 = .ok 50 ∧
    role_mismatch_penalty (pyLower cexJob7.title) (pyLower cexCand7.current_position) = 0 ∧
    ¬ (50 : ℚ) ≤ 25 := by
  refine ⟨by decide, by decide, by norm_num⟩

/-- C7 (amended): each conflict rule's penalty is individually capped at 25
and scales with the number of conflicting skills, but the caps of the (six)
rules add, so the table-driven total is only bounded by 150; the whole
penalty function is that table total plus the fixed title/position
penalties. -/
theorem claim_C7_amended (c : Candidate) (j : Job) (skills : Finset Str)
    (h : lowerSkillsSet c.skills = .ok skills) :
    (∀ rule ∈ stack_conflicts (pyLower j.title),
      conflict_rule_penalty (pyLower j.title) skills rule ≤ 25) ∧
    table_conflict_penalty (pyLower j.title) skills ≤ 150 ∧
    calculate_technology_mismatch_penalty c j = .ok
      (table_conflict_penalty (pyLower j.title) skills +
        role_mismatch_penalty (pyLower j.title) (pyLower c.current_position)) := by
  have hrule : ∀ rule ∈ stack_conflicts (pyLower j.title),
      conflict_rule_penalty (pyLower j.title) skills rule ≤ 25 := by
    intro rule _
    unfold conflict_rule_penalty
    split_ifs with h1 h2
    · exact min_le_right _ _
    · norm_num
    · norm_num
  refine ⟨hrule, ?_, ?_⟩
  · unfold table_conflict_penalty
    have hsum := list_map_sum_le (stack_conflicts (pyLower j.title))
      (conflict_rule_penalty (pyLower j.title) skills) 25 hrule
    have hlen : (((stack_conflicts (pyLower j.title)).length : ℚ)) = 6 := by
      simp [stack_conflicts]
    rw [hlen] at hsum
    linarith
  · unfold calculate_technology_mismatch_penalty
    rw [h]
    simp [bind, Except.bind, pure, Except.pure]

/-- Witness for the amended C7 at concrete inputs. -/
theorem claim_C7_witness :
    (∀ rule ∈ stack_conflicts (pyLower cexJob7.title),
      conflict_rule_penalty (pyLower cexJob7.title)
        (strSet ["react", "vue", "angular"]) rule ≤ 25) ∧
    table_conflict_penalty (pyLower cexJob7.title)
      (strSet ["react", "vue", "angular"]) ≤ 150 :=
  ⟨(claim_C7_amended cexCand7 cexJob7 (strSet ["react", "vue", "angular"])
      (by decide)).1,
   (claim_C7_amended cexCand7 cexJob7 (strSet ["react", "vue", "angular"])
      (by decide)).2.1⟩

/-- C8: the claim asserts cache keys agree whenever the two texts agree after
trimming, lowercasing and whitespace-collapsing; the code normalizes only by
`strip().lower()` and never collapses internal whitespace, so "a  b" and
"a b" (whitespace-collapse-equal) hash different normalized texts and get
different keys under any digest that separates them (here: the identity as
an injective stand-in for the truncated sha256, which separates these two
inputs as well). -/
theorem claim_C8_counterexample :
    spec_normalized_text ("a  b".data) = spec_normalized_text ("a b".data) ∧
    pyLower (pyStrip ("a  b".data)) ≠ pyLower (pyStrip ("a b".data)) ∧
    get_cache_key (fun s => s) ("a  b".data) ("embedding".data) ≠
      get_cache_key (fun s => s) ("a b".data) ("embedding".data) := by
  refine ⟨by decide, by decide, by decide⟩

/-- C8 (amended): two texts that agree after trimming and lowercasing (with
no whitespace collapsing) always produce the same cache key, for the same
purpose tag and the fixed model identifier, whatever the digest function. -/
theorem claim_C8_amended (sha16 : Str → Str) (t1 t2 purpose : Str)
    (h : pyLower (pyStrip t1) = pyLower (pyStrip t2)) :
    get_cache_key sha16 t1 purpose = get_cache_key sha16 t2 purpose := by
  unfold get_cache_key
  rw [h]

/-- Witness for the amended C8 at concrete inputs. -/
theorem claim_C8_witness :
    get_cache_key (fun s => s) ("  Python Dev ".data) ("embedding".data) =
      get_cache_key (fun s => s) ("python dev".data) ("embedding".data) :=
  claim_C8_amended (fun s => s) ("  Python Dev ".data) ("python dev".data)
    ("embedding".data) (by decide)

/-- C9 (confirmed): appending one more skill that occurs in the job's
primary text (title + required segment) never decreases the primary-skill
bonus of `_calculate_primary_skills_match`. -/
theorem claim_C9 (c : Candidate) (j : Job) (s : Str) (b : ℚ)
    (hin : pyIn (pyLower s)
      (pyLower (j.title ++ [' '] ++ (separate_requirements j.requirements).1)) = true)
    (hb : calculate_primary_skills_match c j = .ok b) :
    ∃ b', calculate_primary_skills_match
        { c with skills := c.skills ++ [some s] } j = .ok b' ∧ b ≤ b' := by
  unfold calculate_primary_skills_match lowerSkillsSet at hb ⊢
  cases hls : lowerSkills c.skills with
  | error e =>
    rw [hls] at hb
    simp [bind, Except.bind] at hb
  | ok l =>
    rw [hls] at hb
    simp only [bind, Except.bind, pure, Except.pure] at hb
    rw [lowerSkills_append_some hls s]
    simp only [bind, Except.bind, pure, Except.pure]
    refine ⟨_, rfl, ?_⟩
    cases hb
    have hsub : l.toFinset.filter
        (fun t => pyIn t (pyLower (j.title ++ [' '] ++
          (separate_requirements j.requirements).1)) = true) ⊆
        (l ++ [pyLower s]).toFinset.filter
        (fun t => pyIn t (pyLower (j.title ++ [' '] ++
          (separate_requirements j.requirements).1)) = true) := by
      apply Finset.filter_subset_filter
      intro t ht
      rw [List.toFinset_append]
      exact Finset.mem_union_left _ ht
    have hcard := Finset.card_le_card hsub
    have hcast : ((l.toFinset.filter
        (fun t => pyIn t (pyLower (j.title ++ [' '] ++
          (separate_requirements j.requirements).1)) = true)).card : ℚ) ≤
        (((l ++ [pyLower s]).toFinset.filter
        (fun t => pyIn t (pyLower (j.title ++ [' '] ++
          (separate_requirements j.requirements).1)) = true)).card : ℚ) := by
      exact_mod_cast hcard
    apply min_le_min _ le_rfl
    nlinarith

/-- Witness for C9 at concrete inputs. -/
theorem claim_C9_witness :
    ∃ b', calculate_primary_skills_match
        { cexCand4 with skills := cexCand4.skills ++ [some ("python".data)] }
        cexJob3 = .ok b' ∧ (0 : ℚ) ≤ b' :=
  claim_C9 cexCand4 cexJob3 ("python".data) 0 (by decide) (by decide)

end SemanticJobMatcher

namespace SemanticMatcher

/-- C5 (amended): `SemanticMatcher.calculate_similarity` maps zero-norm
inputs to 0 with no division, and on nonzero norms returns exactly
`(cosine + 1) / 2`, a value in `[0, 1]` (the `max 0` clamp is never
binding, by Cauchy-Schwarz); the `SemanticJobMatcher` embedding path,
however, uses the raw cosine — see the counterexample theorem. -/
theorem claim_C5_amended (a b : List ℚ) (n1 n2 : ℚ)
    (h1 : n1 * n1 = normSq a) (h2 : n2 * n2 = normSq b)
    (hn1 : 0 ≤ n1) (hn2 : 0 ≤ n2) :
    ((normSq a = 0 ∨ normSq b = 0) → calculate_similarity a b n1 n2 = 0) ∧
    (normSq a ≠ 0 → normSq b ≠ 0 →
      calculate_similarity a b n1 n2 = (dotL a b / (n1 * n2) + 1) / 2 ∧
      0 ≤ calculate_similarity a b n1 n2 ∧
      calculate_similarity a b n1 n2 ≤ 1) := by
  constructor
  · intro h
    unfold calculate_similarity
    rcases h with h | h
    · rw [if_pos (Or.inl (by rw [← h1] at h; exact mul_self_eq_zero.mp h))]
    · rw [if_pos (Or.inr (by rw [← h2] at h; exact mul_self_eq_zero.mp h))]
  · intro ha hb
    have hn1' : n1 ≠ 0 := by
      intro h
      rw [h, mul_zero] at h1
      exact ha h1.symm
    have hn2' : n2 ≠ 0 := by
      intro h
      rw [h, mul_zero] at h2
      exact hb h2.symm
    have hpos : 0 < n1 * n2 :=
      lt_of_le_of_ne (mul_nonneg hn1 hn2) (Ne.symm (mul_ne_zero hn1' hn2'))
    obtain ⟨hlo, hhi⟩ := abs_dotL_le h1 h2 hn1 hn2
    have hq_lo : (-1 : ℚ) ≤ dotL a b / (n1 * n2) := by
      rw [le_div_iff hpos]
      linarith
    have hq_hi : dotL a b / (n1 * n2) ≤ 1 := by
      rw [div_le_one hpos]
      linarith
    have heq : calculate_similarity a b n1 n2 = (dotL a b / (n1 * n2) + 1) / 2 := by
      unfold calculate_similarity
      rw [if_neg (by push_neg; exact ⟨hn1', hn2'⟩)]
      exact max_eq_right (by linarith)
    refine ⟨heq, ?_, ?_⟩
    · rw [heq]; linarith
    · rw [heq]; linarith

/-- Witness for the amended C5: a zero vector yields similarity 0; the pair
`[1,0]`, `[-3,4]` (norms exactly 1 and 5) yields `(cosine+1)/2 = 1/5`. -/
theorem claim_C5_witness :
    calculate_similarity [0, 0] [1, 0] 0 1 = 0 ∧
    calculate_similarity [1, 0] [-3, 4] 1 5 =
      (dotL [1, 0] [-3, 4] / (1 * 5) + 1) / 2 ∧
    0 ≤ calculate_similarity [1, 0] [-3, 4] 1 5 ∧
    calculate_similarity [1, 0] [-3, 4] 1 5 ≤ 1 := by
  refine ⟨?_, ?_⟩
  · exact (claim_C5_amended [0, 0] [1, 0] 0 1 (by decide) (by decide)
      (by norm_num) (by norm_num)).1 (Or.inl (by decide))
  · exact (claim_C5_amended [1, 0] [-3, 4] 1 5 (by decide) (by decide)
      (by norm_num) (by norm_num)).2 (by decide) (by decide)

end SemanticMatcher

namespace SemanticJobMatcher

/-- C5: the claim asserts that every similarity used to score a candidate
against a job is the normalized `(cosine + 1) / 2`; the
`SemanticJobMatcher.calculate_job_match_score` embedding path instead scales
the raw sklearn cosine by 100.  Concretely: embeddings `[1,0]` and `[-3,4]`
have cosine `-3/5`, the pipeline yields score 0 (the negative base is
clamped), while the claimed normalization `(cosine+1)/2 = 1/5` would yield
score 20 through the very same business rules, clamp and rounding. -/
theorem claim_C5_counterexample :
    envCosine.cosSim [1, 0] [-3, 4] = -3/5 ∧
    (1 : ℚ) * 1 = SemanticMatcher.normSq [1, 0] ∧
    (5 : ℚ) * 5 = SemanticMatcher.normSq [-3, 4] ∧
    SemanticMatcher.calculate_similarity [1, 0] [-3, 4] 1 5 = (-3/5 + 1) / 2 ∧
    (calculate_job_match_score envCosine emptyCache cexCand cexJob).1 = 0 ∧
    spec_pair_score_from_cosine (-3/5) cexCand cexJob = 20 ∧
    (0 : ℚ) ≠ 20 := by
  refine ⟨by decide, by decide, by decide, by decide, by decide, by decide, by decide⟩

theorem prepare_candidate_text_error_of_none {c : Candidate}
    (h : none ∈ c.skills) : prepare_candidate_text c = .error () := by
  have hne : c.skills ≠ [] := by
    intro h'
    rw [h'] at h
    simp at h
  unfold prepare_candidate_text
  rw [if_pos hne, joinSkills_error_of_none h]
  rfl

theorem business_rules_error_of_none {c : Candidate} {j : Job} {base : ℚ}
    (h : none ∈ c.skills) : apply_business_rules c j base = .error () := by
  unfold apply_business_rules calculate_technology_mismatch_penalty lowerSkillsSet
  rw [lowerSkills_error_of_none h]
  rfl

theorem keyword_score_zero_of_none {c : Candidate} {j : Job}
    (h : none ∈ c.skills) : calculate_keyword_match_score c j = 0 := by
  unfold calculate_keyword_match_score keyword_match_body
  simp only [business_rules_error_of_none h, bind, Except.bind]

end SemanticJobMatcher

namespace SemanticJobMatcher

/-- C3: the claim asserts that ANY embedding-model failure degrades to the
keyword-fallback path.  In the code, a failing `model.encode` is caught
inside `_get_embedding` and degrades to a zero vector, so scoring continues
on the embedding path: with every encode raising, the pair below scores 21
(zero-vector cosine 0 plus business-rule bonuses) while its keyword-fallback
score is 71. -/
theorem claim_C3_counterexample :
    envEncodeFails.encode (pyStrip ("Technical skills: python".data)) = .error () ∧
    (calculate_job_match_score envEncodeFails emptyCache cexCand3 cexJob3).1 = 21 ∧
    calculate_keyword_match_score cexCand3 cexJob3 = 71 ∧
    (calculate_job_match_score envEncodeFails emptyCache cexCand3 cexJob3).1 ≠
      calculate_keyword_match_score cexCand3 cexJob3 := by
  refine ⟨by decide, by decide, by decide, by decide⟩

/-- C3 (amended): no exception escapes `calculate_job_match_score`; a cache
read failing at the similarity stage degrades to the keyword fallback with
the cache state untouched; and a malformed (non-string) skill entry makes
both the embedding path and the fallback body raise internally, which the
two `except` layers convert into score 0 — while a failing `model.encode`
degrades to a zero embedding inside the embedding path instead of routing
to the fallback (see the counterexample theorem). -/
theorem claim_C3_amended :
    (∀ (env : MatcherEnv) (st : CacheSt) (c : Candidate) (j : Job) (ct : Str),
      env.available = true →
      (∀ s k, env.simOps.get s k = .error ()) →
      prepare_candidate_text c = .ok ct →
      pyStrip ct ≠ [] →
      pyStrip (prepare_job_text j) ≠ [] →
      calculate_job_match_score env st c j =
        (calculate_keyword_match_score c j, st)) ∧
    (∀ (env : MatcherEnv) (st : CacheSt) (c : Candidate) (j : Job),
      none ∈ c.skills →
      calculate_job_match_score env st c j = ((0 : ℚ), st)) := by
  constructor
  · intro env st c j ct ha hget hct hne1 hne2
    unfold calculate_job_match_score calc_body
    rw [ha, hct]
    dsimp only
    rw [hget]
    have hcond : ¬ (pyStrip ct = [] ∨ pyStrip (prepare_job_text j) = []) := by
      simp [hne1, hne2]
    rw [if_neg hcond, if_neg (show ¬ (true = false) by simp)]
  · intro env st c j h
    unfold calculate_job_match_score calc_body
    by_cases ha : env.available = false
    · rw [if_pos ha]
      show (calculate_keyword_match_score c j, st) = ((0 : ℚ), st)
      rw [keyword_score_zero_of_none h]
    · rw [if_neg ha, prepare_candidate_text_error_of_none h]
      show (calculate_keyword_match_score c j, st) = ((0 : ℚ), st)
      rw [keyword_score_zero_of_none h]

/-- Witness for the amended C3 at concrete inputs: a failing similarity-cache
read yields exactly the keyword score with the state untouched, and a
candidate with a non-string skill entry scores 0 on the embedding path. -/
theorem claim_C3_witness :
    calculate_job_match_score envSimGetFails emptyCache cexCand cexJob =
      (calculate_keyword_match_score cexCand cexJob, emptyCache) ∧
    calculate_job_match_score envEncodeFails emptyCache
      ({ skills := [none] } : Candidate) cexJob3 = ((0 : ℚ), emptyCache) :=
  ⟨claim_C3_amended.1 envSimGetFails emptyCache cexCand cexJob
      ("Technical skills: a".data) rfl (fun _ _ => rfl) (by decide) (by decide)
      (by decide),
   claim_C3_amended.2 envEncodeFails emptyCache { skills := [none] } cexJob3
      (by decide)⟩

end SemanticJobMatcher

namespace SemanticJobMatcher

theorem stdOps_get {α : Type} (st : List (Str × α)) (k : Str) :
    (stdOps (α := α)).get st k = .ok (assocGet st k) := rfl

theorem stdOps_set {α : Type} (st : List (Str × α)) (k : Str) (v : α) :
    (stdOps (α := α)).set st k v = .ok ((k, v) :: st) := rfl

/-- With the standard cache backend and the provider available,
`_get_embedding` never raises and never returns `None`. -/
theorem get_embedding_std (env : MatcherEnv) (hops : env.embOps = stdOps)
    (ha : env.available = true) (st : List (Str × List ℚ)) (t : Str) :
    ∃ v st', get_embedding env st t = .ok (some v, st') := by
  unfold get_embedding
  rw [ha, hops]
  by_cases hempty : t = [] ∨ pyStrip t = []
  · rw [if_neg (by simp), if_pos hempty]
    exact ⟨zeros384, st, rfl⟩
  · rw [if_neg (by simp), if_neg hempty]
    dsimp only
    rw [stdOps_get]
    cases hget : assocGet st (get_cache_key env.sha16 t ("embedding".data)) with
    | some v => exact ⟨v, st, rfl⟩
    | none =>
      cases henc : env.encode (pyStrip t) with
      | error e => exact ⟨zeros384, st, rfl⟩
      | ok emb =>
        dsimp only
        rw [stdOps_set]
        exact ⟨emb, _, rfl⟩

/-- Case analysis of the `try` block over the standard cache backend: a
returned score is clamped to `[0, 100]` whenever every previously cached
score is, the similarity store only ever gains clamped scores, and an
escaped exception leaves the similarity store untouched. -/
theorem calc_body_spec (env : MatcherEnv) (st : CacheSt) (c : Candidate)
    (j : Job) (hemb : env.embOps = stdOps) (hsim : env.simOps = stdOps)
    (hinv : ∀ p ∈ st.sim, 0 ≤ p.2 ∧ p.2 ≤ 100) :
    (∀ s st', calc_body env st c j = .ok s st' →
      (0 ≤ s ∧ s ≤ 100) ∧ ∀ p ∈ st'.sim, 0 ≤ p.2 ∧ p.2 ≤ 100) ∧
    (∀ st', calc_body env st c j = .exc st' → st'.sim = st.sim) := by
  by_cases ha : env.available = false
  · unfold calc_body
    rw [if_pos ha]
    constructor
    · intro s st' h
      cases h
      exact ⟨calculate_keyword_match_score_bounds c j, hinv⟩
    · intro st' h
      cases h
  · have ha' : env.available = true := by
      cases henv : env.available
      · exact absurd henv ha
      · rfl
    unfold calc_body
    rw [if_neg ha]
    cases hct : prepare_candidate_text c with
    | error e =>
      constructor
      · intro s st' h
        cases h
      · intro st' h
        cases h
        rfl
    | ok ct =>
      dsimp only
      by_cases hempty : pyStrip ct = [] ∨ pyStrip (prepare_job_text j) = []
      · rw [if_pos hempty]
        constructor
        · intro s st' h
          cases h
          refine ⟨⟨le_refl 0, by norm_num⟩, hinv⟩
        · intro st' h
          cases h
      · rw [if_neg hempty, hsim, stdOps_get]
        cases hcache : assocGet st.sim (get_cache_key env.sha16
            (ct ++ "||".data ++ prepare_job_text j) ("similarity_v2".data)) with
        | some cached =>
          dsimp only
          constructor
          · intro s st' h
            cases h
            exact ⟨hinv _ (assocGet_mem hcache), hinv⟩
          · intro st' h
            cases h
        | none =>
          dsimp only
          obtain ⟨v1, E1, hge1⟩ := get_embedding_std env hemb ha' st.emb ct
          rw [hge1]
          dsimp only
          obtain ⟨v2, E2, hge2⟩ :=
            get_embedding_std env hemb ha' E1 (prepare_job_text j)
          rw [hge2]
          dsimp only
          cases hbr : apply_business_rules c j (env.cosSim v1 v2 * 100) with
          | error e =>
            constructor
            · intro s st' h
              cases h
            · intro st' h
              cases h
              rfl
          | ok score₁ =>
            dsimp only
            rw [stdOps_set]
            dsimp only
            constructor
            · intro s st' h
              cases h
              refine ⟨⟨pyRound2_nonneg (clamp_nonneg _), pyRound2_le_100 (clamp_le_100 _)⟩, ?_⟩
              intro p hp
              rcases List.mem_cons.mp hp with rfl | hp'
              · exact ⟨clamp_nonneg _, clamp_le_100 _⟩
              · exact hinv p hp'
            · intro st' h
              cases h

/-- C1 (confirmed): with the standard cache backend, whatever the embedding
model, the cosine values and the digest, the pair score is always within
`[0, 100]` on both the embedding path and the keyword-fallback path
(including the cached-score path, provided every previously cached score is
itself in range — which scoring preserves, as the second conjunct shows). -/
theorem claim_C1 (available : Bool) (encode : Str → Except Unit (List ℚ))
    (cosSim : List ℚ → List ℚ → ℚ) (sha16 : Str → Str) (st : CacheSt)
    (c : Candidate) (j : Job)
    (hinv : ∀ p ∈ st.sim, 0 ≤ p.2 ∧ p.2 ≤ 100) :
    (0 ≤ (calculate_job_match_score (stdEnv available encode cosSim sha16) st c j).1 ∧
      (calculate_job_match_score (stdEnv available encode cosSim sha16) st c j).1 ≤ 100) ∧
    (∀ p ∈ (calculate_job_match_score (stdEnv available encode cosSim sha16) st c j).2.sim,
      0 ≤ p.2 ∧ p.2 ≤ 100) := by
  obtain ⟨hok, hexc⟩ :=
    calc_body_spec (stdEnv available encode cosSim sha16) st c j rfl rfl hinv
  unfold calculate_job_match_score
  cases hbody : calc_body (stdEnv available encode cosSim sha16) st c j with
  | ok s st' =>
    obtain ⟨hs, hst'⟩ := hok s st' hbody
    exact ⟨hs, hst'⟩
  | exc st' =>
    have hsim' := hexc st' hbody
    refine ⟨calculate_keyword_match_score_bounds c j, ?_⟩
    intro p hp
    rw [hsim'] at hp
    exact hinv p hp

/-- Witness for C1 at concrete inputs (empty cache, fallback environment). -/
theorem claim_C1_witness :
    (0 ≤ (calculate_job_match_score (stdEnv false (fun _ => .error ())
        (fun _ _ => 0) (fun s => s)) emptyCache cexCand3 cexJob3).1 ∧
      (calculate_job_match_score (stdEnv false (fun _ => .error ())
        (fun _ _ => 0) (fun s => s)) emptyCache cexCand3 cexJob3).1 ≤ 100) ∧
    (∀ p ∈ (calculate_job_match_score (stdEnv false (fun _ => .error ())
        (fun _ _ => 0) (fun s => s)) emptyCache cexCand3 cexJob3).2.sim,
      0 ≤ p.2 ∧ p.2 ≤ 100) :=
  claim_C1 false (fun _ => .error ()) (fun _ _ => 0) (fun s => s)
    emptyCache cexCand3 cexJob3 (by simp [emptyCache])

end SemanticJobMatcher

namespace SemanticJobMatcher

theorem score_jobs_from_cons (env : MatcherEnv) (c : Candidate)
    (acc : List (Job × ℚ) × CacheSt) (x : Job) (xs : List Job) :
    score_jobs_from env c acc (x :: xs) =
      score_jobs_from env c
        (acc.1 ++ [(x, (calculate_job_match_score env acc.2 c x).1)],
          (calculate_job_match_score env acc.2 c x).2) xs := rfl

theorem score_jobs_from_map_fst (env : MatcherEnv) (c : Candidate) :
    ∀ (jobs : List Job) (acc : List (Job × ℚ) × CacheSt),
      ((score_jobs_from env c acc jobs).1).map Prod.fst =
        acc.1.map Prod.fst ++ jobs := by
  intro jobs
  induction jobs with
  | nil =>
    intro acc
    simp [score_jobs_from]
  | cons x xs ih =>
    intro acc
    rw [score_jobs_from_cons, ih]
    simp

/-- C6: the claim asserts ties are broken by job identifier ascending; the
code uses Python's stable `sort(key=score, reverse=True)`, which keeps the
input order of equal scores.  Two identically scoring jobs supplied in the
order (id 2, id 1) are returned in that order, not id-ascending. -/
theorem claim_C6_counterexample :
    (find_best_matching_jobs envFallback emptyCache cexCand
        [cexJobB, cexJobA] 5).1 = [(cexJobB, 0), (cexJobA, 0)] ∧
    cexJobA.id = some 1 ∧ cexJobB.id = some 2 ∧
    (find_best_matching_jobs envFallback emptyCache cexCand
        [cexJobB, cexJobA] 5).1 ≠ [(cexJobA, 0), (cexJobB, 0)] := by
  refine ⟨by decide, by decide, by decide, by decide⟩

/-- C6 (amended): `find_best_matching_jobs` scores every job in the list in
order, sorts the scored pairs descending by score — with ties kept in input
order (stable sort), not broken by job identifier — and returns the first
`top_k` of the sorted list. -/
theorem claim_C6_amended (env : MatcherEnv) (st : CacheSt) (c : Candidate)
    (jobs : List Job) (top_k : Nat) :
    ((score_jobs env st c jobs).1).map Prod.fst = jobs ∧
    (find_best_matching_jobs env st c jobs top_k).1 =
      (sortDesc (score_jobs env st c jobs).1).take top_k ∧
    (sortDesc (score_jobs env st c jobs).1).Perm (score_jobs env st c jobs).1 ∧
    SortedDesc (find_best_matching_jobs env st c jobs top_k).1 ∧
    (∀ q : ℚ,
      (sortDesc (score_jobs env st c jobs).1).filter (fun y => decide (y.2 = q)) =
        ((score_jobs env st c jobs).1).filter (fun y => decide (y.2 = q))) := by
  refine ⟨?_, rfl, sortDesc_perm _, ?_, fun q => filter_sortDesc q _⟩
  · simpa using score_jobs_from_map_fst env c jobs ([], st)
  · show SortedDesc ((sortDesc (score_jobs env st c jobs).1).take top_k)
    exact List.Pairwise.sublist (List.take_sublist _ _) (sortDesc_sorted _)

theorem batch_inner_cons (env : MatcherEnv) (c : Candidate) (x : Job)
    (xs : List Job) (start : List (Int × ℚ) × CacheSt) :
    batch_inner env c (x :: xs) start = batch_inner env c xs
      (match truthyId x.id with
       | none => start
       | some job_id =>
         (start.1 ++ [(job_id, (calculate_job_match_score env start.2 c x).1)],
           (calculate_job_match_score env start.2 c x).2)) := rfl

theorem batch_inner_map_fst (env : MatcherEnv) (c : Candidate) :
    ∀ (jobs : List Job) (start : List (Int × ℚ) × CacheSt),
      ((batch_inner env c jobs start).1).map Prod.fst =
        start.1.map Prod.fst ++ jobs.filterMap (fun j => truthyId j.id) := by
  intro jobs
  induction jobs with
  | nil =>
    intro start
    simp [batch_inner]
  | cons x xs ih =>
    intro start
    rw [batch_inner_cons]
    cases hid : truthyId x.id with
    | none =>
      rw [ih]
      simp [List.filterMap_cons, hid]
    | some job_id =>
      rw [ih]
      simp [List.filterMap_cons, hid]

theorem batch_fold_cons (env : MatcherEnv) (jobs : List Job)
    (acc : List (Int × List (Int × ℚ)) × CacheSt) (cand : Candidate)
    (rest : List Candidate) :
    batch_fold env jobs acc (cand :: rest) = batch_fold env jobs
      (match truthyId cand.id with
       | none => acc
       | some candidate_id =>
         (dictSet acc.1 candidate_id
             (sortDesc (batch_inner env cand jobs ([], acc.2)).1),
           (batch_inner env cand jobs ([], acc.2)).2)) rest := rfl

theorem batch_fold_spec (env : MatcherEnv) (jobs : List Job) :
    ∀ (cands : List Candidate) (acc : List (Int × List (Int × ℚ)) × CacheSt),
      (∀ x : Int, (∃ l, (x, l) ∈ (batch_fold env jobs acc cands).1) ↔
        (∃ l, (x, l) ∈ acc.1) ∨ x ∈ cands.filterMap (fun c => truthyId c.id)) ∧
      (∀ x l, (x, l) ∈ (batch_fold env jobs acc cands).1 →
        (x, l) ∈ acc.1 ∨
          ((l.map Prod.fst).Perm (jobs.filterMap (fun j => truthyId j.id)) ∧
            SortedDesc l)) := by
  intro cands
  induction cands with
  | nil =>
    intro acc
    constructor
    · intro x
      simp [batch_fold]
    · intro x l h
      exact Or.inl h
  | cons cand rest ih =>
    intro acc
    rw [batch_fold_cons]
    cases hid : truthyId cand.id with
    | none =>
      obtain ⟨ih1, ih2⟩ := ih acc
      constructor
      · intro x
        rw [ih1 x]
        simp [List.filterMap_cons, hid]
      · exact ih2
    | some cid =>
      obtain ⟨ih1, ih2⟩ := ih
        (dictSet acc.1 cid (sortDesc (batch_inner env cand jobs ([], acc.2)).1),
          (batch_inner env cand jobs ([], acc.2)).2)
      constructor
      · intro x
        rw [ih1 x]
        rw [exists_mem_dictSet_iff]
        simp only [List.filterMap_cons, hid, List.mem_cons]
        tauto
      · intro x l h
        rcases ih2 x l h with h' | h'
        · rcases mem_dictSet_elim h' with ⟨hx, hl⟩ | h''
          · subst hl
            refine Or.inr ⟨?_, sortDesc_sorted _⟩
            have hperm := (sortDesc_perm
              (batch_inner env cand jobs ([], acc.2)).1).map Prod.fst
            have hfst := batch_inner_map_fst env cand jobs ([], acc.2)
            simp only [List.map_nil, List.nil_append] at hfst
            rw [hfst] at hperm
            exact hperm
          · exact Or.inl h''
        · exact Or.inr h'

/-- C10 (confirmed): in `batch_calculate_matches`, a candidate id appears in
the result exactly when some input candidate carries that id as a truthy
(non-`None`, non-zero) value — so candidates with missing or falsy ids are
silently omitted; and every list in the result pairs exactly the truthy job
ids (falsy-id jobs silently omitted, every remaining pair scored once),
sorted descending by score. -/
theorem claim_C10 (env : MatcherEnv) (st : CacheSt)
    (cands : List Candidate) (jobs : List Job) :
    (∀ x : Int, (∃ l, (x, l) ∈ (batch_calculate_matches env st cands jobs).1) ↔
      x ∈ cands.filterMap (fun c => truthyId c.id)) ∧
    (∀ x l, (x, l) ∈ (batch_calculate_matches env st cands jobs).1 →
      (l.map Prod.fst).Perm (jobs.filterMap (fun j => truthyId j.id)) ∧
        SortedDesc l) := by
  obtain ⟨h1, h2⟩ := batch_fold_spec env jobs cands ([], st)
  constructor
  · intro x
    unfold batch_calculate_matches
    rw [h1 x]
    simp
  · intro x l h
    rcases h2 x l h with h' | h'
    · simp at h'
    · exact h'

/-- Witness for C10 at concrete inputs: a zero-id candidate and an id-less
job are omitted, the remaining candidate's list covers exactly the truthy
job ids, descending. -/
theorem claim_C10_witness :
    (([((1 : Int), (0 : ℚ)), (2, 0)].map Prod.fst).Perm
      ([cexJobNoId, cexJobA, cexJobB].filterMap (fun j => truthyId j.id)) ∧
      SortedDesc [((1 : Int), (0 : ℚ)), (2, 0)]) ∧
    (∃ l, ((5 : Int), l) ∈ (batch_calculate_matches envFallback emptyCache
      [cexCandZeroId, cexCandId5] [cexJobNoId, cexJobA, cexJobB]).1) :=
  ⟨(claim_C10 envFallback emptyCache [cexCandZeroId, cexCandId5]
      [cexJobNoId, cexJobA, cexJobB]).2 5 [(1, 0), (2, 0)] (by decide),
   (claim_C10 envFallback emptyCache [cexCandZeroId, cexCandId5]
      [cexJobNoId, cexJobA, cexJobB]).1 5 |>.mpr (by decide)⟩

end SemanticJobMatcher

namespace SemanticJobMatcher

/-- C2: the claim asserts two calls with identical records return identical
scores.  The code caches the CLAMPED, UNROUNDED score but returns the
2-decimal ROUNDED score on a miss, and returns the cached value unrounded on
a hit: with cosine 0.12345 the first call returns 12.34 and the second
returns 12.345. -/
theorem claim_C2_counterexample :
    (calculate_job_match_score envRound emptyCache cexCand cexJob).1 = 617/50 ∧
    (calculate_job_match_score envRound
        (calculate_job_match_score envRound emptyCache cexCand cexJob).2
        cexCand cexJob).1 = 2469/200 ∧
    (calculate_job_match_score envRound emptyCache cexCand cexJob).1 ≠
      (calculate_job_match_score envRound
        (calculate_job_match_score envRound emptyCache cexCand cexJob).2
        cexCand cexJob).1 := by
  refine ⟨by decide, by decide, by decide⟩

theorem assocGet_cons_self {α : Type} (k : Str) (v : α) (rest : List (Str × α)) :
    assocGet ((k, v) :: rest) k = some v := by
  rw [assocGet, if_pos rfl]

theorem assocGet_cons_ne {α : Type} {k k' : Str} (v : α) (rest : List (Str × α))
    (h : k' ≠ k) : assocGet ((k', v) :: rest) k = assocGet rest k := by
  rw [assocGet, if_neg h]

theorem calc_unavailable (env : MatcherEnv) (ha : env.available = false)
    (st : CacheSt) (c : Candidate) (j : Job) :
    calculate_job_match_score env st c j =
      (calculate_keyword_match_score c j, st) := by
  unfold calculate_job_match_score calc_body
  rw [if_pos ha]

theorem calc_prepare_error (env : MatcherEnv) (ha : env.available = true)
    {c : Candidate} {e : Unit} (hct : prepare_candidate_text c = .error e)
    (st : CacheSt) (j : Job) :
    calculate_job_match_score env st c j =
      (calculate_keyword_match_score c j, st) := by
  unfold calculate_job_match_score calc_body
  rw [ha, hct, if_neg (show ¬ (true = false) by simp)]

theorem calc_empty_text (env : MatcherEnv) (ha : env.available = true)
    {c : Candidate} {ct : Str} (hct : prepare_candidate_text c = .ok ct)
    (st : CacheSt) {j : Job}
    (hempty : pyStrip ct = [] ∨ pyStrip (prepare_job_text j) = []) :
    calculate_job_match_score env st c j = ((0 : ℚ), st) := by
  unfold calculate_job_match_score calc_body
  rw [ha, hct]
  dsimp only
  rw [if_pos hempty, if_neg (show ¬ (true = false) by simp)]

theorem calc_sim_hit (env : MatcherEnv) (hsim : env.simOps = stdOps)
    (ha : env.available = true) {c : Candidate} {ct : Str}
    (hct : prepare_candidate_text c = .ok ct) (st : CacheSt) {j : Job}
    (hempty : ¬ (pyStrip ct = [] ∨ pyStrip (prepare_job_text j) = []))
    {v : ℚ}
    (hcache : assocGet st.sim (get_cache_key env.sha16
      (ct ++ "||".data ++ prepare_job_text j) ("similarity_v2".data)) = some v) :
    calculate_job_match_score env st c j = (v, st) := by
  unfold calculate_job_match_score calc_body
  rw [ha, hct]
  dsimp only
  rw [hsim, stdOps_get, hcache, if_neg hempty,
    if_neg (show ¬ (true = false) by simp)]

theorem calc_sim_miss_br_error (env : MatcherEnv) (hemb : env.embOps = stdOps)
    (hsim : env.simOps = stdOps) (ha : env.available = true)
    {c : Candidate} {ct : Str} (hct : prepare_candidate_text c = .ok ct)
    (st : CacheSt) {j : Job}
    (hempty : ¬ (pyStrip ct = [] ∨ pyStrip (prepare_job_text j) = []))
    (hcache : assocGet st.sim (get_cache_key env.sha16
      (ct ++ "||".data ++ prepare_job_text j) ("similarity_v2".data)) = none)
    {v1 v2 : List ℚ} {E1 E2 : List (Str × List ℚ)}
    (hge1 : get_embedding env st.emb ct = .ok (some v1, E1))
    (hge2 : get_embedding env E1 (prepare_job_text j) = .ok (some v2, E2))
    {e : Unit}
    (hbr : apply_business_rules c j (env.cosSim v1 v2 * 100) = .error e) :
    calculate_job_match_score env st c j =
      (calculate_keyword_match_score c j, ⟨E2, st.sim⟩) := by
  unfold calculate_job_match_score calc_body
  rw [ha, hct]
  dsimp only
  rw [hsim, stdOps_get, hcache, if_neg hempty,
    if_neg (show ¬ (true = false) by simp)]
  dsimp only
  rw [hge1]
  dsimp only
  rw [hge2]
  dsimp only
  rw [hbr]

theorem calc_sim_miss_br_ok (env : MatcherEnv) (hemb : env.embOps = stdOps)
    (hsim : env.simOps = stdOps) (ha : env.available = true)
    {c : Candidate} {ct : Str} (hct : prepare_candidate_text c = .ok ct)
    (st : CacheSt) {j : Job}
    (hempty : ¬ (pyStrip ct = [] ∨ pyStrip (prepare_job_text j) = []))
    (hcache : assocGet st.sim (get_cache_key env.sha16
      (ct ++ "||".data ++ prepare_job_text j) ("similarity_v2".data)) = none)
    {v1 v2 : List ℚ} {E1 E2 : List (Str × List ℚ)}
    (hge1 : get_embedding env st.emb ct = .ok (some v1, E1))
    (hge2 : get_embedding env E1 (prepare_job_text j) = .ok (some v2, E2))
    {score₁ : ℚ}
    (hbr : apply_business_rules c j (env.cosSim v1 v2 * 100) = .ok score₁) :
    calculate_job_match_score env st c j =
      (pyRound2 (max 0 (min 100 score₁)),
        ⟨E2, (get_cache_key env.sha16 (ct ++ "||".data ++ prepare_job_text j)
          ("similarity_v2".data), max 0 (min 100 score₁)) :: st.sim⟩) := by
  unfold calculate_job_match_score calc_body
  rw [ha, hct]
  dsimp only
  rw [hsim, stdOps_get, hcache, if_neg hempty,
    if_neg (show ¬ (true = false) by simp)]
  dsimp only
  rw [hge1]
  dsimp only
  rw [hge2]
  dsimp only
  rw [hbr]
  dsimp only
  rw [stdOps_set]

end SemanticJobMatcher

namespace SemanticJobMatcher

theorem get_embedding_unavailable (env : MatcherEnv)
    (ha : env.available = false) (st : List (Str × List ℚ)) (t : Str) :
    get_embedding env st t = .ok (none, st) := by
  unfold get_embedding
  rw [ha, if_pos rfl]

theorem get_embedding_empty (env : MatcherEnv) (ha : env.available = true)
    (st : List (Str × List ℚ)) {t : Str}
    (hempty : t = [] ∨ pyStrip t = []) :
    get_embedding env st t = .ok (some zeros384, st) := by
  unfold get_embedding
  rw [ha, if_neg (show ¬ (true = false) by simp), if_pos hempty]

theorem get_embedding_hit (env : MatcherEnv) (hops : env.embOps = stdOps)
    (ha : env.available = true) {st : List (Str × List ℚ)} {t : Str}
    (hempty : ¬ (t = [] ∨ pyStrip t = [])) {e : List ℚ}
    (hget : assocGet st (get_cache_key env.sha16 t ("embedding".data)) = some e) :
    get_embedding env st t = .ok (some e, st) := by
  unfold get_embedding
  rw [ha, if_neg (show ¬ (true = false) by simp), if_neg hempty]
  dsimp only
  rw [hops, stdOps_get, hget]

theorem get_embedding_miss (env : MatcherEnv) (hops : env.embOps = stdOps)
    (ha : env.available = true) {st : List (Str × List ℚ)} {t : Str}
    (hempty : ¬ (t = [] ∨ pyStrip t = []))
    (hget : assocGet st (get_cache_key env.sha16 t ("embedding".data)) = none)
    {e : List ℚ} (henc : env.encode (pyStrip t) = .ok e) :
    get_embedding env st t =
      .ok (some e, (get_cache_key env.sha16 t ("embedding".data), e) :: st) := by
  unfold get_embedding
  rw [ha, if_neg (show ¬ (true = false) by simp), if_neg hempty]
  dsimp only
  rw [hops, stdOps_get, hget]
  dsimp only
  rw [henc]
  dsimp only
  rw [stdOps_set]

/-- Exhaustive characterization of a successful `_get_embedding` run over
the standard cache backend with a never-failing `encode`. -/
theorem get_embedding_cases (env : MatcherEnv) (hops : env.embOps = stdOps)
    (henc : ∀ t, ∃ v, env.encode t = .ok v) {E E1 : List (Str × List ℚ)}
    {t : Str} {v : Option (List ℚ)}
    (h : get_embedding env E t = .ok (v, E1)) :
    (env.available = false ∧ v = none ∧ E1 = E) ∨
    (env.available = true ∧ (t = [] ∨ pyStrip t = []) ∧
      v = some zeros384 ∧ E1 = E) ∨
    (env.available = true ∧ ¬ (t = [] ∨ pyStrip t = []) ∧ ∃ e,
      assocGet E (get_cache_key env.sha16 t ("embedding".data)) = some e ∧
      v = some e ∧ E1 = E) ∨
    (env.available = true ∧ ¬ (t = [] ∨ pyStrip t = []) ∧ ∃ e,
      assocGet E (get_cache_key env.sha16 t ("embedding".data)) = none ∧
      env.encode (pyStrip t) = .ok e ∧ v = some e ∧
      E1 = (get_cache_key env.sha16 t ("embedding".data), e) :: E) := by
  cases havail : env.available with
  | false =>
    rw [get_embedding_unavailable env havail E t] at h
    injection h with h'
    injection h' with hv hE
    subst hv
    subst hE
    exact Or.inl ⟨rfl, rfl, rfl⟩
  | true =>
    by_cases hempty : t = [] ∨ pyStrip t = []
    · rw [get_embedding_empty env havail E hempty] at h
      injection h with h'
      injection h' with hv hE
      subst hv
      subst hE
      exact Or.inr (Or.inl ⟨rfl, hempty, rfl, rfl⟩)
    · cases hget : assocGet E (get_cache_key env.sha16 t ("embedding".data)) with
      | some e =>
        rw [get_embedding_hit env hops havail hempty hget] at h
        injection h with h'
        injection h' with hv hE
        subst hv
        subst hE
        exact Or.inr (Or.inr (Or.inl ⟨rfl, hempty, e, rfl, rfl, rfl⟩))
      | none =>
        obtain ⟨e, he⟩ := henc (pyStrip t)
        rw [get_embedding_miss env hops havail hempty hget he] at h
        injection h with h'
        injection h' with hv hE
        subst hv
        subst hE
        exact Or.inr (Or.inr (Or.inr ⟨rfl, hempty, e, rfl, he, rfl, rfl⟩))

/-- Running `_get_embedding` again from its own post-state returns the same
vector and leaves the state unchanged (encode never failing). -/
theorem get_embedding_replay (env : MatcherEnv) (hops : env.embOps = stdOps)
    (henc : ∀ t, ∃ v, env.encode t = .ok v)
    {E E1 : List (Str × List ℚ)} {t : Str} {v : Option (List ℚ)}
    (h : get_embedding env E t = .ok (v, E1)) :
    get_embedding env E1 t = .ok (v, E1) := by
  rcases get_embedding_cases env hops henc h with
    ⟨hav, hv, hE⟩ | ⟨hav, hemp, hv, hE⟩ | ⟨hav, hemp, e, hget, hv, hE⟩ |
    ⟨hav, hemp, e, hget, he, hv, hE⟩
  · subst hE
    exact h
  · subst hE
    exact h
  · subst hE
    exact h
  · subst hE
    subst hv
    exact get_embedding_hit env hops hav hemp (assocGet_cons_self _ _ _)

/-- Running the two `_get_embedding` calls of one scoring pass again from the
state they produced returns the same two vectors and leaves the state
unchanged (encode never failing). -/
theorem get_embedding_pair_stable (env : MatcherEnv) (hops : env.embOps = stdOps)
    (henc : ∀ t, ∃ v, env.encode t = .ok v)
    {E E1 E2 : List (Str × List ℚ)} {t u : Str} {v w : Option (List ℚ)}
    (h1 : get_embedding env E t = .ok (v, E1))
    (h2 : get_embedding env E1 u = .ok (w, E2)) :
    get_embedding env E2 t = .ok (v, E2) ∧
      get_embedding env E2 u = .ok (w, E2) := by
  refine ⟨?_, get_embedding_replay env hops henc h2⟩
  rcases get_embedding_cases env hops henc h2 with
    ⟨hav, hw, hE2⟩ | ⟨hav, hemp, hw, hE2⟩ | ⟨hav, hemp, f, hget, hw, hE2⟩ |
    ⟨hav, hemp, f, hget, he2, hw, hE2⟩
  · subst hE2
    exact get_embedding_replay env hops henc h1
  · subst hE2
    exact get_embedding_replay env hops henc h1
  · subst hE2
    exact get_embedding_replay env hops henc h1
  · subst hE2
    rcases get_embedding_cases env hops henc h1 with
      ⟨hav1, hv, hE1⟩ | ⟨hav1, hemp1, hv, hE1⟩ | ⟨hav1, hemp1, e, hget1, hv, hE1⟩ |
      ⟨hav1, hemp1, e, hget1, he1, hv, hE1⟩
    · rw [hav] at hav1
      cases hav1
    · subst hE1
      subst hv
      exact get_embedding_empty env hav _ hemp1
    · subst hE1
      subst hv
      have hne : get_cache_key env.sha16 u ("embedding".data) ≠
          get_cache_key env.sha16 t ("embedding".data) := by
        intro hkey
        rw [hkey, hget1] at hget
        cases hget
      exact get_embedding_hit env hops hav hemp1
        (by rw [assocGet_cons_ne _ _ hne]; exact hget1)
    · subst hE1
      subst hv
      have hself : assocGet
          ((get_cache_key env.sha16 t ("embedding".data), e) :: E)
          (get_cache_key env.sha16 t ("embedding".data)) = some e :=
        assocGet_cons_self _ _ _
      have hne : get_cache_key env.sha16 u ("embedding".data) ≠
          get_cache_key env.sha16 t ("embedding".data) := by
        intro hkey
        rw [hkey, hself] at hget
        cases hget
      exact get_embedding_hit env hops hav hemp1
        (by rw [assocGet_cons_ne _ _ hne]; exact hself)

end SemanticJobMatcher

namespace SemanticJobMatcher

/-- C2 (amended): with the standard cache backend and a never-failing encode,
two successive calls with identical records agree up to the final 2-decimal
rounding — the first (miss) call returns the rounded score while the second
(hit) call returns the cached unrounded score, so the two differ by at most
1/200 — and they are exactly equal whenever the provider is unavailable
(keyword-fallback path, which does not consult the cache). -/
theorem claim_C2_amended (available : Bool) (encode : Str → Except Unit (List ℚ))
    (cosSim : List ℚ → List ℚ → ℚ) (sha16 : Str → Str) (st : CacheSt)
    (c : Candidate) (j : Job)
    (henc : ∀ t, ∃ v, encode t = .ok v) :
    ((calculate_job_match_score (stdEnv available encode cosSim sha16) st c j).1 -
        (calculate_job_match_score (stdEnv available encode cosSim sha16)
          (calculate_job_match_score (stdEnv available encode cosSim sha16) st c j).2
          c j).1 ≤ 1/200 ∧
      (calculate_job_match_score (stdEnv available encode cosSim sha16)
          (calculate_job_match_score (stdEnv available encode cosSim sha16) st c j).2
          c j).1 -
        (calculate_job_match_score (stdEnv available encode cosSim sha16) st c j).1 ≤
          1/200) ∧
    (available = false →
      (calculate_job_match_score (stdEnv available encode cosSim sha16) st c j).1 =
        (calculate_job_match_score (stdEnv available encode cosSim sha16)
          (calculate_job_match_score (stdEnv available encode cosSim sha16) st c j).2
          c j).1) := by
  set env := stdEnv available encode cosSim sha16 with henv
  have hemb : env.embOps = stdOps := by rw [henv]; rfl
  have hsim : env.simOps = stdOps := by rw [henv]; rfl
  have henc' : ∀ t, ∃ v, env.encode t = .ok v := by
    intro t
    rw [henv]
    exact henc t
  cases havail : available with
  | false =>
    have ha : env.available = false := by rw [henv, havail]; rfl
    rw [calc_unavailable env ha st c j]
    dsimp only
    rw [calc_unavailable env ha st c j]
    dsimp only
    refine ⟨⟨by norm_num, by norm_num⟩, fun _ => rfl⟩
  | true =>
    have ha : env.available = true := by rw [henv, havail]; rfl
    have himp : ¬ (available = false) := by rw [havail]; simp
    cases hct : prepare_candidate_text c with
    | error e =>
      rw [calc_prepare_error env ha hct st j]
      dsimp only
      rw [calc_prepare_error env ha hct st j]
      dsimp only
      exact ⟨⟨by norm_num, by norm_num⟩, fun habs => absurd habs (by simp)⟩
    | ok ct =>
      by_cases hempty : pyStrip ct = [] ∨ pyStrip (prepare_job_text j) = []
      · rw [calc_empty_text env ha hct st hempty]
        dsimp only
        rw [calc_empty_text env ha hct st hempty]
        dsimp only
        exact ⟨⟨by norm_num, by norm_num⟩, fun habs => absurd habs (by simp)⟩
      · cases hcache : assocGet st.sim (get_cache_key env.sha16
            (ct ++ "||".data ++ prepare_job_text j) ("similarity_v2".data)) with
        | some v =>
          rw [calc_sim_hit env hsim ha hct st hempty hcache]
          dsimp only
          rw [calc_sim_hit env hsim ha hct st hempty hcache]
          dsimp only
          exact ⟨⟨by norm_num, by norm_num⟩, fun habs => absurd habs (by simp)⟩
        | none =>
          obtain ⟨v1, E1, hge1⟩ := get_embedding_std env hemb ha st.emb ct
          obtain ⟨v2, E2, hge2⟩ :=
            get_embedding_std env hemb ha E1 (prepare_job_text j)
          obtain ⟨hres1, hres2⟩ := get_embedding_pair_stable env hemb henc' hge1 hge2
          cases hbr : apply_business_rules c j (env.cosSim v1 v2 * 100) with
          | error e =>
            rw [calc_sim_miss_br_error env hemb hsim ha hct st hempty hcache
              hge1 hge2 hbr]
            dsimp only
            rw [calc_sim_miss_br_error env hemb hsim ha hct ⟨E2, st.sim⟩ hempty
              hcache hres1 hres2 hbr]
            dsimp only
            exact ⟨⟨by norm_num, by norm_num⟩,
              fun habs => absurd habs (by simp)⟩
          | ok score₁ =>
            rw [calc_sim_miss_br_ok env hemb hsim ha hct st hempty hcache
              hge1 hge2 hbr]
            dsimp only
            rw [calc_sim_hit env hsim ha hct
              ⟨E2, (get_cache_key env.sha16 (ct ++ "||".data ++ prepare_job_text j)
                ("similarity_v2".data), max 0 (min 100 score₁)) :: st.sim⟩
              hempty (assocGet_cons_self _ _ _)]
            dsimp only
            have hnear := pyRound2_near (max 0 (min 100 score₁))
            refine ⟨⟨by linarith [hnear.1, hnear.2], by linarith [hnear.1, hnear.2]⟩,
              fun habs => absurd habs (by simp)⟩

/-- Witness for the amended C2 at concrete inputs (fallback environment with
a total encode: the two calls agree exactly, hence within 1/200). -/
theorem claim_C2_witness :
    ((calculate_job_match_score (stdEnv false (fun _ => .ok [1])
        (fun _ _ => 0) (fun s => s)) emptyCache cexCand cexJob).1 -
      (calculate_job_match_score (stdEnv false (fun _ => .ok [1])
        (fun _ _ => 0) (fun s => s))
        (calculate_job_match_score (stdEnv false (fun _ => .ok [1])
          (fun _ _ => 0) (fun s => s)) emptyCache cexCand cexJob).2
        cexCand cexJob).1 ≤ 1/200) ∧
    ((calculate_job_match_score (stdEnv false (fun _ => .ok [1])
        (fun _ _ => 0) (fun s => s)) emptyCache cexCand cexJob).1 =
      (calculate_job_match_score (stdEnv false (fun _ => .ok [1])
        (fun _ _ => 0) (fun s => s))
        (calculate_job_match_score (stdEnv false (fun _ => .ok [1])
          (fun _ _ => 0) (fun s => s)) emptyCache cexCand cexJob).2
        cexCand cexJob).1) :=
  ⟨(claim_C2_amended false (fun _ => .ok [1]) (fun _ _ => 0) (fun s => s)
      emptyCache cexCand cexJob (fun t => ⟨[1], rfl⟩)).1.1,
   (claim_C2_amended false (fun _ => .ok [1]) (fun _ _ => 0) (fun s => s)
      emptyCache cexCand cexJob (fun t => ⟨[1], rfl⟩)).2 rfl⟩

end SemanticJobMatcher
